import Mathlib

/-!
# A verification model of the OpenBench worker client (`Client/Client.py`)

This file gives a shallow embedding, in Lean 4, of the workload-execution
pipeline of the OpenBench worker: the multi-lane benchmark validator
(`computeMultiThreadedBenchmark`, `verifyEngine`), the time-control scaler
(`computeAdjustedTimecontrol`), the streaming result processor
(`processCutechess`, `killCutechess`, `reportResults`) and the top-level
workload polling loop (`completeWorkload`, `main`), together with theorems
about the reporting protocol, the scaling arithmetic and the error paths.

Modelling conventions:
* Python `int` is `ℤ`, Python `float` values are modelled exactly by
  unnormalised fractions (`Frac`, an integer numerator/denominator pair);
  every numeric value appearing in the claims is exactly representable,
  and ties in `round(x, 2)` are resolved half-to-even as CPython does on
  exactly-representable hundredth-ties.
* Python strings are Lean `String`/`List Char`; the Python string methods
  used by the source (`split`, `strip`, `upper`, `startswith`, `in`,
  whitespace `split()`, `int(...)`, `float(...)`) are re-implemented below
  with their CPython semantics on the ASCII inputs the client handles.
  (`float(...)` is modelled on plain decimal literals; exponent and
  inf/nan forms never occur in time controls and are not modelled.)
* Fallible Python code is `Except PyExc` / `Option`; an uncaught Python
  exception is an `Except.error`.  `SystemExit` (raised by `sys.exit()`)
  and `KeyboardInterrupt` are *not* subclasses of `Exception` and are
  therefore not caught by `except Exception` — the model keeps them as
  distinct `PyExc` constructors.
* Side effects of the result processor (reports to the coordinator,
  killing/waiting on the cutechess process, closing its pipe) are
  recorded as an explicit `Effect` trace; the coordinator is modelled as
  a function from the report index to the HTTP outcome of that report.
-/

/-! ## Python string primitives -/

/-- The characters stripped by `bytes.strip()` / treated as separators by
`str.split()` with no arguments: space, `\t`, `\n`, `\r`, `\x0b`, `\x0c`. -/
def isPySpace (c : Char) : Bool :=
  c = ' ' || c = '\t' || c = '\n' || c = '\r' || c = '\x0b' || c = '\x0c'

/-- Python `s.strip()`: remove leading and trailing whitespace. -/
def pyStrip (cs : List Char) : List Char :=
  ((cs.dropWhile isPySpace).reverse.dropWhile isPySpace).reverse

/-- Python `s.split(sep)` for a single-character separator `sep`:
`"".split('/') = [""]`, `"a/b".split('/') = ["a", "b"]`, etc.  The result
is always non-empty. -/
def splitCharList (sep : Char) : List Char → List (List Char)
  | [] => [[]]
  | a :: rest =>
    if a = sep then [] :: splitCharList sep rest
    else
      match splitCharList sep rest with
      | [] => [[a]]
      | g :: gs => (a :: g) :: gs

/-- Python `s.split()` (no argument): split on runs of whitespace,
discarding empty pieces.  `acc` holds the current (reversed) token. -/
def wsSplitAux : List Char → List Char → List (List Char)
  | [], acc => if acc.isEmpty then [] else [acc.reverse]
  | c :: rest, acc =>
    if isPySpace c then
      if acc.isEmpty then wsSplitAux rest [] else acc.reverse :: wsSplitAux rest []
    else wsSplitAux rest (c :: acc)

def pyWSSplit (cs : List Char) : List (List Char) := wsSplitAux cs []

/-- Python `needle in hay` for strings: substring test. -/
def pySubstr (needle hay : List Char) : Bool :=
  hay.tails.any (fun t => needle.isPrefixOf t)

/-- Python `s.startswith(p)`. -/
def pyStartsWith (p cs : List Char) : Bool := p.isPrefixOf cs

/-- Python `s.upper()` (ASCII range, which is all the client compares). -/
def pyUpper (cs : List Char) : List Char := cs.map Char.toUpper

def pyUpperStr (s : String) : String := ⟨pyUpper s.data⟩

/-! ## Python numeric literals -/

/-- Numeric value of a digit character. -/
def digitVal (c : Char) : ℕ := c.toNat - '0'.toNat

/-- Value of a digit string read left to right. -/
def digitsVal (cs : List Char) : ℕ := cs.foldl (fun acc c => acc * 10 + digitVal c) 0

def isDigits (cs : List Char) : Bool := cs.all Char.isDigit

/-- Python `int(s)` on an optionally signed decimal literal (the only
form appearing in cutechess score lines); `none` models `ValueError`. -/
def pyInt (cs : List Char) : Option ℤ :=
  match cs with
  | '+' :: rest => if rest ≠ [] ∧ isDigits rest then some (digitsVal rest : ℤ) else none
  | '-' :: rest => if rest ≠ [] ∧ isDigits rest then some (-(digitsVal rest : ℤ)) else none
  | rest => if rest ≠ [] ∧ isDigits rest then some (digitsVal rest : ℤ) else none

/-! ## Exact fractions standing for Python floats

CPython floats are binary; every constant the claims touch (time-control
fields with a few decimals, integer node counts, and their products,
quotients and hundredth-roundings) is computed exactly here with integer
numerator/denominator pairs.  Denominators are kept positive by
construction everywhere the client produces them. -/

structure Frac where
  num : ℤ
  den : ℤ
deriving DecidableEq, Repr

def Frac.ofInt (n : ℤ) : Frac := ⟨n, 1⟩

def Frac.mul (a b : Frac) : Frac := ⟨a.num * b.num, a.den * b.den⟩

def Frac.add (a b : Frac) : Frac := ⟨a.num * b.den + b.num * a.den, a.den * b.den⟩

/-- Rational value of a fraction (for specification statements). -/
def Frac.toRat (a : Frac) : ℚ := (a.num : ℚ) / (a.den : ℚ)

/-- Python `float(s)` on an optionally signed plain decimal literal:
`"60"`, `"0.5"`, `"5."`, `".5"`; `none` models `ValueError`. -/
def pyFloatCore (cs : List Char) : Option Frac :=
  match splitCharList '.' cs with
  | [a] =>
    if a ≠ [] ∧ isDigits a then some ⟨(digitsVal a : ℤ), 1⟩ else none
  | [a, b] =>
    if (a ≠ [] ∨ b ≠ []) ∧ isDigits a ∧ isDigits b then
      some ⟨(digitsVal a : ℤ) * (10 : ℤ) ^ b.length + (digitsVal b : ℤ), (10 : ℤ) ^ b.length⟩
    else none
  | _ => none

def pyFloat (cs : List Char) : Option Frac :=
  match cs with
  | [] => pyFloatCore []
  | c :: rest =>
    if c = '+' then pyFloatCore rest
    else if c = '-' then (pyFloatCore rest).map (fun f => ⟨-f.num, f.den⟩)
    else pyFloatCore (c :: rest)

/-! ## Rounding and float formatting

`round(x, 2)` rounds to the nearest hundredth, ties to even; `str` of the
result prints the integer part, a dot, and one or two fractional digits
with trailing zeros removed but at least one digit kept (`120.0`,
`0.5`, `0.25`), which is CPython's shortest-repr output for these
hundredth-valued floats. -/

/-- Nearest integer to `x.num / x.den` (requires `0 < x.den`),
ties to even — the rounding CPython's `round` applies. -/
def fracRoundHalfEven (x : Frac) : ℤ :=
  let f := x.num / x.den
  let r2 := 2 * (x.num - f * x.den)
  if r2 < x.den then f
  else if x.den < r2 then f + 1
  else if f % 2 = 0 then f else f + 1

/-- `round(x, 2)` expressed in hundredths: the integer `m` with
`round(x, 2) = m / 100`. -/
def roundToHundredths (x : Frac) : ℤ := fracRoundHalfEven ⟨x.num * 100, x.den⟩

/-- Decimal digits of a natural number (fuel-based so that the kernel can
evaluate it; `n + 1` units of fuel always suffice). -/
def digitChar (n : ℕ) : Char := Char.ofNat (48 + n)

def toDecimalAux : ℕ → ℕ → List Char → List Char
  | 0, _, acc => acc
  | fuel + 1, n, acc =>
    if n < 10 then digitChar n :: acc
    else toDecimalAux fuel (n / 10) (digitChar (n % 10) :: acc)

def toDecimal (n : ℕ) : List Char := toDecimalAux (n + 1) n []

/-- Decimal rendering of a nonnegative number of hundredths `n`: the
integer part, a dot, then the fractional hundredths with trailing zeros
dropped but at least one digit kept. -/
def formatHundredthsBody (n : ℕ) : List Char :=
  let ip := n / 100
  let fp := n % 100
  if fp = 0 then toDecimal ip ++ ['.', '0']
  else if fp % 10 = 0 then toDecimal ip ++ '.' :: toDecimal (fp / 10)
  else if fp < 10 then toDecimal ip ++ '.' :: '0' :: toDecimal fp
  else toDecimal ip ++ '.' :: toDecimal fp

/-- `str(m / 100)` for a hundredth-valued Python float given as the
integer `m` of hundredths. -/
def formatHundredths (m : ℤ) : String :=
  if m < 0 then ⟨'-' :: formatHundredthsBody m.natAbs⟩ else ⟨formatHundredthsBody m.natAbs⟩

/-- `str(round(v * factor, 2))`: one scaled time-control field. -/
def scaleField (factor v : Frac) : String := formatHundredths (roundToHundredths (v.mul factor))

/-! ## Python exceptions -/

/-- The exception values the client can raise or observe.  `systemExit`
(raised by `sys.exit()`) and `keyboardInterrupt` are *not* subclasses of
`Exception`, so `except Exception` does not catch them. -/
inductive PyExc
  | valueError
  | indexError
  | zeroDivisionError
  | runtimeError (msg : String)
  | systemExit
  | keyboardInterrupt
deriving DecidableEq, Repr

/-! ## The result stream processor (`processCutechess`)

State of the loop body of `processCutechess` (Client.py:372-414):
`crashes = timelosses = 0; score = [0, 0, 0]; sent = [0, 0, 0]`.
`nreports` counts the `reportResults` calls made so far; it indexes the
modelled coordinator. -/

structure Tally where
  wins : ℤ
  losses : ℤ
  draws : ℤ
deriving DecidableEq, Repr

def Tally.zero : Tally := ⟨0, 0, 0⟩

def Tally.sum (t : Tally) : ℤ := t.wins + t.losses + t.draws

def Tally.sub (a b : Tally) : Tally := ⟨a.wins - b.wins, a.losses - b.losses, a.draws - b.draws⟩

def Tally.add (a b : Tally) : Tally := ⟨a.wins + b.wins, a.losses + b.losses, a.draws + b.draws⟩

/-- Component-wise `≤`, the order in which `sent` tracks `score`. -/
def Tally.le (a b : Tally) : Prop := a.wins ≤ b.wins ∧ a.losses ≤ b.losses ∧ a.draws ≤ b.draws

instance : DecidablePred (fun p : Tally × Tally => Tally.le p.1 p.2) := by
  unfold Tally.le; infer_instance

instance (a b : Tally) : Decidable (Tally.le a b) := by
  unfold Tally.le; infer_instance

def Tally.leB (a b : Tally) : Bool := decide (Tally.le a b)

structure CState where
  crashes : ℕ
  timelosses : ℕ
  score : Tally
  sent : Tally
  nreports : ℕ
deriving DecidableEq, Repr

def initState : CState := ⟨0, 0, Tally.zero, Tally.zero, 0⟩

/-- `GAMES_PER_TASK = 250` (Client.py:10). -/
def GAMES_PER_TASK : ℕ := 250

/-- `REPORT_RATE = 5` (Client.py:11): games played per upload cycle. -/
def REPORT_RATE : ℕ := 5

/-- `reportResults` (Client.py:354-369): posts the delta to the server and
returns the reply text; if the HTTP request raises, it catches the
exception and returns `"Unable"`.  The argument is the HTTP outcome
(`none` = the request raised). -/
def reportResults (httpOutcome : Option String) : String :=
  match httpOutcome with
  | some text => text
  | none => "Unable"

/-- Observable side effects of the result stream processor.  A `report`
records the delta payload sent to the coordinator (`wins/losses/draws`
delta plus the crash/timeloss counters) together with the reply `status`
it received.  `kill`, `procWait` and `closeStdout` are the process
management actions of `killCutechess` and of the end-of-stream branch. -/
inductive Effect
  | report (delta : Tally) (crashes timelosses : ℕ) (status : String)
  | kill
  | procWait
  | closeStdout
deriving DecidableEq, Repr

/-- `killCutechess` (Client.py:33-49): on both platforms it forcefully
kills the cutechess process (tree), waits on it, and closes its stdout. -/
def killCutechess : List Effect := [Effect.kill, Effect.procWait, Effect.closeStdout]

/-- Parsing of a `Score of` line (Client.py:397):
`score = list(map(int, line.split(':')[1].split()[0:5:2]))`.
The slice takes the whitespace tokens at indices 0, 2 and 4 after the
colon.  (On a malformed score line with fewer than five tokens the Python
code builds a short list and fails only at the next report; the model
raises at the parse, which is observationally the same for the streams
the theorems quantify over — in both cases no report of that tally is
ever acknowledged.) -/
def parseScoreLine (cs : List Char) : Except PyExc Tally :=
  match splitCharList ':' cs with
  | _ :: p1 :: _ =>
    match pyWSSplit p1 with
    | a :: _ :: b :: _ :: c :: _ =>
      match pyInt a, pyInt b, pyInt c with
      | some w, some l, some d => .ok ⟨w, l, d⟩
      | _, _, _ => .error .valueError
    | _ => .error .valueError
  | _ => .error .indexError

/-- Result of one iteration of the read loop on a non-empty line:
continue reading, return after a STOP reply, or propagate an exception. -/
inductive StepRes
  | cont (st : CState) (effs : List Effect)
  | stopped (st : CState) (effs : List Effect)
  | failed (st : CState) (e : PyExc)
deriving DecidableEq, Repr

/-- One iteration of the `processCutechess` read loop (Client.py:385-414)
on an already-stripped, non-empty line.  `coordinator k` is the HTTP
outcome of the `k`-th `reportResults` call (`none` = request raised, in
which case `reportResults` yields `"Unable"`). -/
def stepLine (coordinator : ℕ → Option String) (st : CState) (line : List Char) : StepRes :=
  -- Parse engine crashes (line 386-387)
  let crashes := st.crashes +
    (if pySubstr "disconnects".data line || pySubstr "connection stalls".data line then 1 else 0)
  -- Parse losses on time (line 390-391)
  let timelosses := st.timelosses + (if pySubstr "on time".data line then 1 else 0)
  let st1 : CState := { st with crashes := crashes, timelosses := timelosses }
  -- Parse updates to scores (line 394-414)
  if pyStartsWith "Score of".data line then
    match parseScoreLine line with
    | .error e => .failed st1 e
    | .ok sc =>
      let st2 : CState := { st1 with score := sc }
      -- After every REPORT_RATE results, update the server (line 400)
      if (Tally.sum sc - Tally.sum st2.sent) % (REPORT_RATE : ℤ) = 0 then
        let wld := Tally.sub sc st2.sent
        let status := reportResults (coordinator st2.nreports)
        let st3 : CState := { st2 with nreports := st2.nreports + 1 }
        let sendEff := Effect.report wld st3.crashes st3.timelosses status
        -- Check for the task being aborted (line 407-409)
        if pyUpperStr status = "STOP" then
          .stopped st3 (sendEff :: killCutechess)
        -- If we fail to update the server, hold onto the results (line 412-414)
        else if pyUpperStr status ≠ "UNABLE" then
          .cont { st3 with crashes := 0, timelosses := 0, sent := sc } [sendEff]
        else
          .cont st3 [sendEff]
      else .cont st2 []
  else .cont st1 []

/-- How a run of `processCutechess` ended: end of stream (an empty read,
line 383), a STOP reply (line 407-409), or a propagated exception. -/
inductive TermKind
  | eof
  | aborted
  | raised (e : PyExc)
deriving DecidableEq, Repr

/-- Outcome of a run: the effect trace, the final loop state, how the
loop ended, and the Python return value of `processCutechess` — which is
`none` on every return path, since both `return` statements
(lines 383 and 409) are bare. -/
structure RunResult where
  trace : List Effect
  final : CState
  kind : TermKind
  ret : Option Tally
deriving DecidableEq, Repr

/-- The read loop of `processCutechess` (Client.py:378-414) over the
byte lines of the cutechess stdout stream.  An exhausted list models the
closed pipe (`readline` returns `b''`); a line that strips to the empty
string takes the same branch (line 383): `cutechess.wait(); return`. -/
def processCutechessLoop (coordinator : ℕ → Option String) :
    List String → CState → RunResult
  | [], st => ⟨[Effect.procWait], st, .eof, none⟩
  | l :: rest, st =>
    let line := pyStrip l.data
    if line.isEmpty then ⟨[Effect.procWait], st, .eof, none⟩
    else
      match stepLine coordinator st line with
      | .cont st' effs =>
        let r := processCutechessLoop coordinator rest st'
        ⟨effs ++ r.trace, r.final, r.kind, r.ret⟩
      | .stopped st' effs => ⟨effs, st', .aborted, none⟩
      | .failed st' e => ⟨[], st', .raised e, none⟩

/-- `processCutechess` (Client.py:372-414) from its initial state. -/
def processCutechess (coordinator : ℕ → Option String) (lines : List String) : RunResult :=
  processCutechessLoop coordinator lines initState

/-! ### Observers on effect traces -/

def Effect.isReport : Effect → Bool
  | .report _ _ _ _ => true
  | _ => false

/-- A report whose reply was the abort sentinel. -/
def Effect.isStopReport : Effect → Bool
  | .report _ _ _ s => pyUpperStr s = "STOP"
  | _ => false

/-- A report acknowledged by the coordinator: any reply other than the
abort sentinel and the unreachable indication advances `sent`
(Client.py:412-414). -/
def Effect.isAcked : Effect → Bool
  | .report _ _ _ s => pyUpperStr s ≠ "STOP" && pyUpperStr s ≠ "UNABLE"
  | _ => false

def Effect.delta : Effect → Tally
  | .report d _ _ _ => d
  | _ => Tally.zero

/-- The loop state an iteration continues (or stops) with. -/
def StepRes.state : StepRes → CState
  | .cont s _ => s
  | .stopped s _ => s
  | .failed s _ => s

/-- The effects one loop iteration performed (none when it raised before
reaching the report). -/
def StepRes.effects : StepRes → List Effect
  | .cont _ e => e
  | .stopped _ e => e
  | .failed _ _ => []

/-- Sum of the win/loss/draw deltas of the acknowledged reports. -/
def ackedDeltaSum : List Effect → Tally
  | [] => Tally.zero
  | e :: tr => (if e.isAcked then e.delta else Tally.zero).add (ackedDeltaSum tr)

/-- The tally a `Score of` line carries, when it is one (used to state
which streams carry genuinely cumulative, nondecreasing tallies). -/
def scoreOfLine (l : String) : Option Tally :=
  let cs := pyStrip l.data
  if pyStartsWith "Score of".data cs then (parseScoreLine cs).toOption else none

/-- The parsed tallies of the stream form a nondecreasing chain from
`cur` — i.e. the score summaries are cumulative, as cutechess prints
them. -/
def cumulativeFrom (cur : Tally) : List String → Bool
  | [] => true
  | l :: rest =>
    match scoreOfLine l with
    | some sc => Tally.leB cur sc && cumulativeFrom sc rest
    | none => cumulativeFrom cur rest

/-! ## The multi-lane benchmark (`computeMultiThreadedBenchmark`) -/

/-- `computeMultiThreadedBenchmark` (Client.py:216-252), given the
`(benchCount, nodesPerSecond)` pair each lane put on the queue (a lane
that failed in any way puts `(0, 0)`, Client.py:212-214).  The average
`sum(nps) / len(nps)` is Python float division; the distinctness check is
`len(set(bench)) > 1`.  `none` models the crash on an empty lane list
(`arguments.threads` is at least 1, so this does not occur). -/
def computeMultiThreadedBenchmark : List (ℤ × ℤ) → Option (ℤ × Frac)
  | [] => none
  | data@((b0, _) :: _) =>
    let bench := data.map Prod.fst
    let nps := data.map Prod.snd
    let avg : Frac := ⟨nps.sum, (nps.length : ℤ)⟩
    if 1 < bench.dedup.length then some (0, Frac.ofInt 0)
    else some (b0, avg)

/-- `verifyEngine` (Client.py:305-321) after the download step: runs the
benchmark lanes and returns the nps value when the consensus bench equals
the engine's declared `bench`, and `None` otherwise. -/
def verifyEngine (expectedBench : ℤ) (laneResults : List (ℤ × ℤ)) : Option Frac :=
  match computeMultiThreadedBenchmark laneResults with
  | none => none
  | some (bench, nps) => if bench = expectedBench then some nps else none

/-- The nps value `processWorkload` hands to `getCutechessCommand`
(Client.py:428): `(devnps + basenps) / 2`. -/
def workloadNps (devnps basenps : Frac) : Frac :=
  ⟨(devnps.add basenps).num, (devnps.add basenps).den * 2⟩

/-! ## The time control scaler (`computeAdjustedTimecontrol`) -/

/-- `computeAdjustedTimecontrol` (Client.py:254-281).
`factor = int(data['test']['nps']) / nps` raises `ZeroDivisionError` when
the measured `nps` is zero; otherwise the three time-control grammars are
dispatched on `'/' in tc` and `'+' in tc`, each numeric field is scaled
by `factor`, rounded to 2 decimal places and reassembled.
(The `reportNodesPerSecond` side effect on line 259 touches neither the
scaling arithmetic nor any claim and is not modelled.) -/
def computeAdjustedTimecontrol (npsBaseline : ℤ) (nps : Frac) (tc : String) :
    Except PyExc String :=
  if nps.num = 0 then .error .zeroDivisionError
  else
    let factor : Frac := ⟨npsBaseline * nps.den, nps.num⟩
    let cs := tc.data
    -- Parse X / Y + Z time controls (line 262-267)
    if pySubstr "/".data cs && pySubstr "+".data cs then
      match splitCharList '/' cs with
      | moves :: p1 :: _ =>
        match splitCharList '+' p1 with
        | [a, b] =>
          match pyFloat a, pyFloat b with
          | some start, some inc =>
            .ok (⟨moves⟩ ++ "/" ++ scaleField factor start ++ "+" ++ scaleField factor inc)
          | _, _ => .error .valueError
        | _ => .error .valueError
      | _ => .error .indexError
    -- Parse X / Y time controls (line 270-274)
    else if pySubstr "/".data cs then
      match splitCharList '/' cs with
      | moves :: p1 :: _ =>
        match pyFloat p1 with
        | some start => .ok (⟨moves⟩ ++ "/" ++ scaleField factor start)
        | none => .error .valueError
      | _ => .error .indexError
    -- Parse X + Z time controls (line 277-281)
    else
      match splitCharList '+' cs with
      | [a, b] =>
        match pyFloat a, pyFloat b with
        | some start, some inc =>
          .ok (scaleField factor start ++ "+" ++ scaleField factor inc)
        | _, _ => .error .valueError
      | _ => .error .valueError

/-! ## The top-level polling loop (`main`, `completeWorkload`) -/

/-- The per-iteration inputs of one pass of the `while True` polling loop
(Client.py:493-498): the outcome of the `getWorkload` request (`.error` =
the HTTP call raised), whether `ast.literal_eval` parses the payload,
the opening-book verification result, the two engine verifications, and
the outcome of the match phase (`getCutechessCommand`/`Popen`/
`processCutechess`; `.error` = an ordinary exception escaped it). -/
instance {ε α : Type} [DecidableEq ε] [DecidableEq α] : DecidableEq (Except ε α) := fun x y =>
  match x, y with
  | .ok a, .ok b => decidable_of_iff (a = b) (by simp)
  | .error a, .error b => decidable_of_iff (a = b) (by simp)
  | .ok _, .error _ => isFalse (fun h => Except.noConfusion h)
  | .error _, .ok _ => isFalse (fun h => Except.noConfusion h)

structure IterationInput where
  fetch : Except String String
  parseOk : Bool
  bookOk : Bool
  devnps : Option Frac
  basenps : Option Frac
  body : Except String Unit
deriving DecidableEq, Repr

/-- `processWorkload` (Client.py:416-430): a failed opening-book check
calls `sys.exit()` (line 420); a missing bench consensus on either engine
returns, skipping the workload (line 426); otherwise the match phase
runs. -/
def processWorkload (inp : IterationInput) : Except PyExc Unit :=
  if !inp.bookOk then .error .systemExit
  else if inp.devnps = none ∨ inp.basenps = none then .ok ()
  else inp.body.mapError .runtimeError

/-- `completeWorkload` (Client.py:432-459): fetch the workload; `"None"`
means no work (sleep and return); `"Bad Credentials"` calls `sys.exit()`;
a malformed payload makes `ast.literal_eval` raise an ordinary
exception; otherwise the workload is processed. -/
def completeWorkload (inp : IterationInput) : Except PyExc Unit :=
  match inp.fetch with
  | .error msg => .error (.runtimeError msg)
  | .ok data =>
    if data = "None" then .ok ()
    else if data = "Bad Credentials" then .error .systemExit
    else if !inp.parseOk then .error (.runtimeError "literal_eval")
    else processWorkload inp

/-- What one iteration of `main`'s polling loop does with the outcome:
`except Exception` catches ordinary exceptions only (log + sleep
`ERROR_TIMEOUT` + poll again); `SystemExit` and `KeyboardInterrupt` are
not `Exception` subclasses, escape the loop, and end the process. -/
inductive MainOutcome
  | nextPoll
  | caughtRetry
  | processExit
deriving DecidableEq, Repr

/-- One iteration of `while True: try: completeWorkload(...) except
Exception` (Client.py:494-498). -/
def mainIteration (inp : IterationInput) : MainOutcome :=
  match completeWorkload inp with
  | .ok _ => .nextPoll
  | .error .systemExit => .processExit
  | .error .keyboardInterrupt => .processExit
  | .error _ => .caughtRetry

/-! ## Helper lemmas: tallies -/

lemma Tally.add_zero (a : Tally) : a.add Tally.zero = a := by
  cases a; simp [Tally.add, Tally.zero]

lemma Tally.zero_add (a : Tally) : Tally.zero.add a = a := by
  cases a; simp [Tally.add, Tally.zero]

lemma Tally.add_assoc (a b c : Tally) : (a.add b).add c = a.add (b.add c) := by
  cases a; cases b; cases c
  simp only [Tally.add, Tally.mk.injEq]
  refine ⟨by ring, by ring, by ring⟩

lemma Tally.le_refl (a : Tally) : a.le a := ⟨le_rfl, le_rfl, le_rfl⟩

lemma Tally.le_trans {a b c : Tally} (h1 : a.le b) (h2 : b.le c) : a.le c :=
  ⟨h1.1.trans h2.1, h1.2.1.trans h2.2.1, h1.2.2.trans h2.2.2⟩

lemma Tally.leB_eq_true_iff {a b : Tally} : a.leB b = true ↔ a.le b := by
  simp [Tally.leB]

/-! ## Helper lemmas: string splitting and substring tests -/

lemma splitCharList_of_not_mem {sep : Char} {xs : List Char} (h : sep ∉ xs) :
    splitCharList sep xs = [xs] := by
  induction xs with
  | nil => rfl
  | cons a rest ih =>
    have ha : ¬ a = sep := fun hcontr => h (hcontr ▸ List.mem_cons_self a rest)
    have hr : sep ∉ rest := fun hmem => h (List.mem_cons_of_mem a hmem)
    simp [splitCharList, ha, ih hr]

lemma splitCharList_append {sep : Char} {xs ys : List Char} (h : sep ∉ xs) :
    splitCharList sep (xs ++ sep :: ys) = xs :: splitCharList sep ys := by
  induction xs with
  | nil => simp [splitCharList]
  | cons a rest ih =>
    have ha : ¬ a = sep := fun hcontr => h (hcontr ▸ List.mem_cons_self a rest)
    have hr : sep ∉ rest := fun hmem => h (List.mem_cons_of_mem a hmem)
    have hrw := ih hr
    simp only [List.cons_append, splitCharList, ha, if_false]
    rw [show rest.append (sep :: ys) = rest ++ sep :: ys from rfl, hrw]

lemma pySubstr_singleton (c : Char) (hay : List Char) :
    pySubstr [c] hay = true ↔ c ∈ hay := by
  induction hay with
  | nil => simp [pySubstr, List.isPrefixOf]
  | cons a t ih =>
    simp only [pySubstr, List.tails] at *
    constructor
    · intro h
      rcases List.any_eq_true.mp h with ⟨w, hw, hpre⟩
      rcases List.mem_cons.mp hw with h1 | h2
      · subst h1
        cases hpre' : List.isPrefixOf [c] (a :: t)
        · rw [hpre'] at hpre; exact absurd hpre (by simp)
        · have : c = a := by
            have := List.isPrefixOf_iff_prefix.mp hpre'
            rcases this with ⟨u, hu⟩
            cases hu
            rfl
          exact this ▸ List.mem_cons_self a t
      · have : pySubstr [c] t = true := by
          simp only [pySubstr]
          exact List.any_eq_true.mpr ⟨w, h2, hpre⟩
        exact List.mem_cons_of_mem a (ih.mp this)
    · intro h
      rcases List.mem_cons.mp h with h1 | h2
      · refine List.any_eq_true.mpr ⟨a :: t, List.mem_cons_self _ _, ?_⟩
        exact List.isPrefixOf_iff_prefix.mpr ⟨t, by rw [h1]; rfl⟩
      · have := ih.mpr h2
        simp only [pySubstr] at this
        rcases List.any_eq_true.mp this with ⟨w, hw, hpre⟩
        exact List.any_eq_true.mpr ⟨w, List.mem_cons_of_mem _ hw, hpre⟩

lemma pySubstr_singleton_false (c : Char) (hay : List Char) (h : c ∉ hay) :
    pySubstr [c] hay = false := by
  cases hval : pySubstr [c] hay
  · rfl
  · exact absurd ((pySubstr_singleton c hay).mp hval) h

/-! ## Helper lemmas: decimal digit rendering -/

lemma digitVal_digitChar {n : ℕ} (h : n < 10) : digitVal (digitChar n) = n := by
  interval_cases n <;> decide

lemma isDigit_digitChar {n : ℕ} (h : n < 10) : (digitChar n).isDigit = true := by
  interval_cases n <;> decide

lemma toDecimalAux_append (fuel : ℕ) :
    ∀ n acc, toDecimalAux fuel n acc = toDecimalAux fuel n [] ++ acc := by
  induction fuel with
  | zero => intro n acc; rfl
  | succ fuel ih =>
    intro n acc
    by_cases h : n < 10
    · simp [toDecimalAux, h]
    · simp only [toDecimalAux, h, if_false]
      rw [ih (n / 10) (digitChar (n % 10) :: acc), ih (n / 10) [digitChar (n % 10)]]
      simp

lemma toDecimalAux_small {fuel n : ℕ} (hf : 0 < fuel) (h : n < 10) (acc : List Char) :
    toDecimalAux fuel n acc = digitChar n :: acc := by
  cases fuel with
  | zero => omega
  | succ f => simp [toDecimalAux, h]

lemma toDecimal_small {n : ℕ} (h : n < 10) : toDecimal n = [digitChar n] := by
  simp [toDecimal, toDecimalAux_small (Nat.succ_pos n) h]

lemma toDecimal_two {n : ℕ} (h1 : 10 ≤ n) (h2 : n < 100) :
    toDecimal n = [digitChar (n / 10), digitChar (n % 10)] := by
  have hn : ¬ n < 10 := by omega
  have h10 : n / 10 < 10 := by omega
  have hpos : 0 < n := by omega
  simp only [toDecimal, toDecimalAux, hn, if_false]
  exact toDecimalAux_small hpos h10 _

lemma lt_ten_pow_succ (n : ℕ) : n < 10 ^ (n + 1) := by
  calc n < 10 ^ n := Nat.lt_pow_self (by norm_num) n
    _ ≤ 10 ^ (n + 1) := Nat.pow_le_pow_right (by norm_num) (Nat.le_succ n)

lemma isDigits_toDecimalAux (fuel : ℕ) :
    ∀ n, n < 10 ^ fuel → isDigits (toDecimalAux fuel n []) = true := by
  induction fuel with
  | zero => intro n h; interval_cases n; rfl
  | succ fuel ih =>
    intro n h
    by_cases hn : n < 10
    · simp [toDecimalAux, hn, isDigits, isDigit_digitChar hn]
    · simp only [toDecimalAux, hn, if_false]
      rw [toDecimalAux_append]
      have hdiv : n / 10 < 10 ^ fuel := by
        rw [Nat.div_lt_iff_lt_mul (by norm_num)]
        calc n < 10 ^ (fuel + 1) := h
          _ = 10 ^ fuel * 10 := by ring
      have hmod : n % 10 < 10 := Nat.mod_lt n (by norm_num)
      have := ih (n / 10) hdiv
      simp only [isDigits, List.all_append, List.all_cons, List.all_nil] at *
      simp [this, isDigit_digitChar hmod]

lemma isDigits_toDecimal (n : ℕ) : isDigits (toDecimal n) = true :=
  isDigits_toDecimalAux (n + 1) n (lt_ten_pow_succ n)

lemma digitsVal_toDecimalAux (fuel : ℕ) :
    ∀ n, n < 10 ^ fuel → digitsVal (toDecimalAux fuel n []) = n := by
  induction fuel with
  | zero => intro n h; interval_cases n; rfl
  | succ fuel ih =>
    intro n h
    by_cases hn : n < 10
    · simp [toDecimalAux, hn, digitsVal, digitVal_digitChar hn]
    · simp only [toDecimalAux, hn, if_false]
      rw [toDecimalAux_append]
      have hdiv : n / 10 < 10 ^ fuel := by
        rw [Nat.div_lt_iff_lt_mul (by norm_num)]
        calc n < 10 ^ (fuel + 1) := h
          _ = 10 ^ fuel * 10 := by ring
      have hmod : n % 10 < 10 := Nat.mod_lt n (by norm_num)
      simp only [digitsVal, List.foldl_append, List.foldl_cons, List.foldl_nil]
      have hval := ih (n / 10) hdiv
      simp only [digitsVal] at hval
      rw [hval, digitVal_digitChar hmod]
      omega

lemma digitsVal_toDecimal (n : ℕ) : digitsVal (toDecimal n) = n :=
  digitsVal_toDecimalAux (n + 1) n (lt_ten_pow_succ n)

lemma toDecimal_ne_nil (n : ℕ) : toDecimal n ≠ [] := by
  have : ∀ fuel m acc, (0 < fuel ∨ acc ≠ []) → toDecimalAux fuel m acc ≠ [] := by
    intro fuel
    induction fuel with
    | zero =>
      intro m acc h
      rcases h with h | h
      · omega
      · exact h
    | succ fuel ih =>
      intro m acc _
      by_cases hm : m < 10
      · simp [toDecimalAux, hm]
      · simp only [toDecimalAux, hm, if_false]
        exact ih (m / 10) _ (Or.inr (by simp))
  exact this (n + 1) n [] (Or.inl (Nat.succ_pos n))

lemma not_mem_of_isDigits {cs : List Char} {c : Char} (h : isDigits cs = true)
    (hc : c.isDigit = false) : c ∉ cs := by
  intro hmem
  have := List.all_eq_true.mp h c hmem
  rw [hc] at this
  exact Bool.noConfusion this

/-! ## Helper lemmas: parsing back a formatted hundredth value -/

lemma pyFloat_eq_core_of_digit_head {c : Char} {rest : List Char}
    (hc : c.isDigit = true) : pyFloat (c :: rest) = pyFloatCore (c :: rest) := by
  have h1 : ¬ c = '+' := by intro h; subst h; exact absurd hc (by decide)
  have h2 : ¬ c = '-' := by intro h; subst h; exact absurd hc (by decide)
  simp [pyFloat, h1, h2]

lemma Frac.toRat_mk (a b : ℤ) : Frac.toRat ⟨a, b⟩ = (a : ℚ) / b := rfl

lemma pyFloatCore_ip_frac (ip : ℕ) (frac : List Char)
    (hfrac : isDigits frac = true) :
    pyFloatCore (toDecimal ip ++ '.' :: frac) =
      some ⟨(digitsVal (toDecimal ip) : ℤ) * (10 : ℤ) ^ frac.length + (digitsVal frac : ℤ),
        (10 : ℤ) ^ frac.length⟩ := by
  have hdotIp : '.' ∉ toDecimal ip := not_mem_of_isDigits (isDigits_toDecimal _) (by decide)
  have hdotFrac : '.' ∉ frac := not_mem_of_isDigits hfrac (by decide)
  have hsp := @splitCharList_append '.' (toDecimal ip) frac hdotIp
  rw [splitCharList_of_not_mem hdotFrac] at hsp
  simp only [pyFloatCore, hsp]
  rw [if_pos ⟨Or.inl (toDecimal_ne_nil _), isDigits_toDecimal _, hfrac⟩]

lemma pyFloatCore_body_case (n : ℕ) (frac : List Char) (hfrac : isDigits frac = true)
    (hbody : formatHundredthsBody n = toDecimal (n / 100) ++ '.' :: frac)
    (hv : ((n / 100) * 10 ^ frac.length + digitsVal frac) * 100 = n * 10 ^ frac.length) :
    ∃ f : Frac, pyFloatCore (formatHundredthsBody n) = some f ∧ 0 < f.den ∧
      f.toRat = (n : ℚ) / 100 := by
  refine ⟨_, by rw [hbody]; exact pyFloatCore_ip_frac (n / 100) frac hfrac, ?_, ?_⟩
  · positivity
  · rw [Frac.toRat_mk, digitsVal_toDecimal]
    set ip := n / 100 with hip
    set dv := digitsVal frac with hdv
    set L := frac.length with hL
    rw [div_eq_div_iff (by positivity) (by norm_num : (100 : ℚ) ≠ 0)]
    push_cast
    have hvq := congrArg (fun k : ℕ => (k : ℚ)) hv
    push_cast at hvq
    linear_combination hvq

lemma formatHundredthsBody_eq_append (n : ℕ) :
    ∃ tl : List Char, formatHundredthsBody n = toDecimal (n / 100) ++ tl := by
  simp only [formatHundredthsBody]
  split_ifs <;> exact ⟨_, rfl⟩

lemma pyFloatCore_body (n : ℕ) :
    ∃ f : Frac, pyFloatCore (formatHundredthsBody n) = some f ∧ 0 < f.den ∧
      f.toRat = (n : ℚ) / 100 := by
  have hfp : n % 100 < 100 := Nat.mod_lt n (by norm_num)
  by_cases h0 : n % 100 = 0
  · refine pyFloatCore_body_case n ['0'] (by decide) ?_ ?_
    · simp only [formatHundredthsBody, h0, if_true]
    · have h1 : digitsVal ['0'] = 0 := rfl
      have h2 : (['0'] : List Char).length = 1 := rfl
      rw [h1, h2]
      omega
  · by_cases h10 : n % 100 % 10 = 0
    · have hq : n % 100 / 10 < 10 := by omega
      refine pyFloatCore_body_case n (toDecimal (n % 100 / 10)) (isDigits_toDecimal _) ?_ ?_
      · simp only [formatHundredthsBody, h0, h10, if_false, if_true]
      · rw [toDecimal_small hq]
        have h1 : digitsVal [digitChar (n % 100 / 10)] =
            0 * 10 + digitVal (digitChar (n % 100 / 10)) := rfl
        have h2 : ([digitChar (n % 100 / 10)] : List Char).length = 1 := rfl
        rw [h1, h2, digitVal_digitChar hq]
        omega
    · by_cases hlt : n % 100 < 10
      · refine pyFloatCore_body_case n ('0' :: toDecimal (n % 100)) ?_ ?_ ?_
        · simp only [isDigits, List.all_cons, Bool.and_eq_true]
          exact ⟨by decide, isDigits_toDecimal _⟩
        · simp only [formatHundredthsBody, h0, h10, hlt, if_false, if_true]
        · rw [toDecimal_small hlt]
          have h1 : digitsVal ['0', digitChar (n % 100)] =
              (0 * 10 + digitVal '0') * 10 + digitVal (digitChar (n % 100)) := rfl
          have h2 : (['0', digitChar (n % 100)] : List Char).length = 2 := rfl
          have h3 : digitVal '0' = 0 := rfl
          rw [h1, h2, h3, digitVal_digitChar hlt]
          omega
      · have hge : 10 ≤ n % 100 := by omega
        refine pyFloatCore_body_case n (toDecimal (n % 100)) (isDigits_toDecimal _) ?_ ?_
        · simp only [formatHundredthsBody, h0, h10, hlt, if_false]
        · rw [digitsVal_toDecimal, toDecimal_two hge hfp]
          have h2 : ([digitChar (n % 100 / 10), digitChar (n % 100 % 10)] : List Char).length = 2 :=
            rfl
          rw [h2]
          omega

lemma pyFloat_formatHundredths (m : ℤ) :
    ∃ f : Frac, pyFloat (formatHundredths m).data = some f ∧ 0 < f.den ∧
      f.toRat = (m : ℚ) / 100 := by
  obtain ⟨f, hf, hden, hval⟩ := pyFloatCore_body m.natAbs
  have habs : ((m.natAbs : ℕ) : ℚ) = |(m : ℚ)| := by
    rw [Int.cast_natAbs, Int.cast_abs]
  obtain ⟨tl, htl⟩ := formatHundredthsBody_eq_append m.natAbs
  obtain ⟨d, dr, hdr⟩ : ∃ d dr, toDecimal (m.natAbs / 100) = d :: dr := by
    cases ht : toDecimal (m.natAbs / 100) with
    | nil => exact absurd ht (toDecimal_ne_nil _)
    | cons d dr => exact ⟨d, dr, rfl⟩
  have hd : d.isDigit = true := by
    have hdig := isDigits_toDecimal (m.natAbs / 100)
    rw [hdr] at hdig
    simp only [isDigits, List.all_cons, Bool.and_eq_true] at hdig
    exact hdig.1
  have hbody2 : formatHundredthsBody m.natAbs = d :: (dr ++ tl) := by
    rw [htl, hdr]
    rfl
  by_cases hm : m < 0
  · refine ⟨⟨-f.num, f.den⟩, ?_, hden, ?_⟩
    · have hdata : (formatHundredths m).data = '-' :: formatHundredthsBody m.natAbs := by
        simp [formatHundredths, hm]
      rw [hdata]
      simp [pyFloat, hf]
    · show ((-f.num : ℤ) : ℚ) / (f.den : ℚ) = (m : ℚ) / 100
      have hv2 : (f.num : ℚ) / (f.den : ℚ) = ((m.natAbs : ℕ) : ℚ) / 100 := hval
      push_cast
      rw [neg_div, hv2, habs, abs_of_neg (show (m : ℚ) < 0 from by exact_mod_cast hm)]
      ring
  · refine ⟨f, ?_, hden, ?_⟩
    · have hdata : (formatHundredths m).data = formatHundredthsBody m.natAbs := by
        simp [formatHundredths, hm]
      rw [hdata, hbody2, pyFloat_eq_core_of_digit_head hd, ← hbody2, hf]
    · rw [hval, habs, abs_of_nonneg (show (0 : ℚ) ≤ (m : ℚ) from by exact_mod_cast not_lt.mp hm)]

/-! ## Helper lemmas: half-to-even rounding -/

lemma fracRoundHalfEven_scale {n d k : ℤ} (hd : 0 < d) (hk : 0 < k) :
    fracRoundHalfEven ⟨n * k, d * k⟩ = fracRoundHalfEven ⟨n, d⟩ := by
  have hdiv : n * k / (d * k) = n / d := by
    rw [mul_comm n k, mul_comm d k]
    exact Int.mul_ediv_mul_of_pos n d hk
  simp only [fracRoundHalfEven, hdiv]
  have hrem : 2 * (n * k - n / d * (d * k)) = 2 * (n - n / d * d) * k := by ring
  rw [hrem]
  have h1 : (2 * (n - n / d * d) * k < d * k) ↔ (2 * (n - n / d * d) < d) :=
    mul_lt_mul_right hk
  have h2 : (d * k < 2 * (n - n / d * d) * k) ↔ (d < 2 * (n - n / d * d)) :=
    mul_lt_mul_right hk
  by_cases hc1 : 2 * (n - n / d * d) < d
  · rw [if_pos (h1.mpr hc1), if_pos hc1]
  · rw [if_neg (fun h => hc1 (h1.mp h)), if_neg hc1]
    by_cases hc2 : d < 2 * (n - n / d * d)
    · rw [if_pos (h2.mpr hc2), if_pos hc2]
    · rw [if_neg (fun h => hc2 (h2.mp h)), if_neg hc2]

lemma fracRoundHalfEven_exact {n d : ℤ} (hd : 0 < d) (hdvd : d ∣ n) :
    fracRoundHalfEven ⟨n, d⟩ = n / d := by
  have hmod : n % d = 0 := Int.emod_eq_zero_of_dvd hdvd
  have hrem : n - n / d * d = 0 := by
    have h := Int.ediv_add_emod n d
    rw [hmod, add_zero] at h
    linear_combination -h
  simp only [fracRoundHalfEven, hrem]
  rw [if_pos (by omega : 2 * (0 : ℤ) < d)]

/-! ## Helper lemmas: the three time-control grammars -/

lemma stringData_mk (l : List Char) : (⟨l⟩ : String).data = l := rfl

lemma computeAdjustedTimecontrol_mvs_inc
    (npsB : ℤ) (nps : Frac) (hn : ¬ nps.num = 0)
    {m s i : List Char}
    (hm1 : '/' ∉ m) (hm2 : '+' ∉ m)
    (hs1 : '/' ∉ s) (hs2 : '+' ∉ s)
    (hi1 : '/' ∉ i) (hi2 : '+' ∉ i)
    {vs vi : Frac} (hvs : pyFloat s = some vs) (hvi : pyFloat i = some vi) :
    computeAdjustedTimecontrol npsB nps ⟨m ++ '/' :: (s ++ '+' :: i)⟩ =
      .ok (⟨m⟩ ++ "/" ++ scaleField ⟨npsB * nps.den, nps.num⟩ vs ++ "+"
        ++ scaleField ⟨npsB * nps.den, nps.num⟩ vi) := by
  have hslash : pySubstr "/".data (m ++ '/' :: (s ++ '+' :: i)) = true := by
    rw [show "/".data = ['/'] from rfl]
    exact (pySubstr_singleton _ _).mpr (by simp)
  have hplus : pySubstr "+".data (m ++ '/' :: (s ++ '+' :: i)) = true := by
    rw [show "+".data = ['+'] from rfl]
    exact (pySubstr_singleton _ _).mpr (by simp)
  have hsp1 : splitCharList '/' (m ++ '/' :: (s ++ '+' :: i)) = m :: [s ++ '+' :: i] := by
    rw [splitCharList_append hm1, splitCharList_of_not_mem ?hni]
    case hni =>
      simp only [List.mem_append, List.mem_cons]
      push_neg
      exact ⟨hs1, by decide, hi1⟩
  have hsp2 : splitCharList '+' (s ++ '+' :: i) = [s, i] := by
    rw [splitCharList_append hs2, splitCharList_of_not_mem hi2]
  simp only [computeAdjustedTimecontrol, stringData_mk, hn, if_false, hslash, hplus,
    Bool.and_self, if_true, hsp1, hsp2, hvs, hvi]

lemma computeAdjustedTimecontrol_mvs
    (npsB : ℤ) (nps : Frac) (hn : ¬ nps.num = 0)
    {m s : List Char}
    (hm1 : '/' ∉ m) (hm2 : '+' ∉ m)
    (hs1 : '/' ∉ s) (hs2 : '+' ∉ s)
    {vs : Frac} (hvs : pyFloat s = some vs) :
    computeAdjustedTimecontrol npsB nps ⟨m ++ '/' :: s⟩ =
      .ok (⟨m⟩ ++ "/" ++ scaleField ⟨npsB * nps.den, nps.num⟩ vs) := by
  have hslash : pySubstr "/".data (m ++ '/' :: s) = true := by
    rw [show "/".data = ['/'] from rfl]
    exact (pySubstr_singleton _ _).mpr (by simp)
  have hplus : pySubstr "+".data (m ++ '/' :: s) = false := by
    rw [show "+".data = ['+'] from rfl]
    refine pySubstr_singleton_false _ _ ?_
    simp only [List.mem_append, List.mem_cons]
    push_neg
    exact ⟨hm2, by decide, hs2⟩
  have hsp1 : splitCharList '/' (m ++ '/' :: s) = m :: [s] := by
    rw [splitCharList_append hm1, splitCharList_of_not_mem hs1]
  simp only [computeAdjustedTimecontrol, stringData_mk, hn, if_false, hslash, hplus,
    Bool.false_and, Bool.and_false, if_true, hsp1, hvs]
  simp

lemma computeAdjustedTimecontrol_start_inc
    (npsB : ℤ) (nps : Frac) (hn : ¬ nps.num = 0)
    {s i : List Char}
    (hs1 : '/' ∉ s) (hs2 : '+' ∉ s)
    (hi1 : '/' ∉ i) (hi2 : '+' ∉ i)
    {vs vi : Frac} (hvs : pyFloat s = some vs) (hvi : pyFloat i = some vi) :
    computeAdjustedTimecontrol npsB nps ⟨s ++ '+' :: i⟩ =
      .ok (scaleField ⟨npsB * nps.den, nps.num⟩ vs ++ "+"
        ++ scaleField ⟨npsB * nps.den, nps.num⟩ vi) := by
  have hslash : pySubstr "/".data (s ++ '+' :: i) = false := by
    rw [show "/".data = ['/'] from rfl]
    refine pySubstr_singleton_false _ _ ?_
    simp only [List.mem_append, List.mem_cons]
    push_neg
    exact ⟨hs1, by decide, hi1⟩
  have hsp2 : splitCharList '+' (s ++ '+' :: i) = [s, i] := by
    rw [splitCharList_append hs2, splitCharList_of_not_mem hi2]
  simp only [computeAdjustedTimecontrol, stringData_mk, hn, if_false, hslash,
    Bool.false_and, if_false, hsp2, hvs, hvi]
  simp

/-! ## Helper lemmas: scaling by a unit factor -/

lemma scaleField_identity {B : ℤ} (hB : 0 < B) {v : Frac} (hvden : 0 < v.den)
    (hdvd : v.den ∣ 100 * v.num) :
    ∃ w : Frac, pyFloat (scaleField ⟨B * (1 : ℤ), B⟩ v).data = some w ∧ 0 < w.den ∧
      w.toRat = v.toRat := by
  have hmul : v.mul ⟨B * 1, B⟩ = ⟨v.num * (B * 1), v.den * B⟩ := rfl
  have hround : roundToHundredths (v.mul ⟨B * 1, B⟩) = 100 * v.num / v.den := by
    show fracRoundHalfEven ⟨v.num * (B * 1) * 100, v.den * B⟩ = 100 * v.num / v.den
    have harg : (⟨v.num * (B * 1) * 100, v.den * B⟩ : Frac) = ⟨100 * v.num * B, v.den * B⟩ := by
      rw [Frac.mk.injEq]
      exact ⟨by ring, rfl⟩
    rw [harg, fracRoundHalfEven_scale hvden hB, fracRoundHalfEven_exact hvden hdvd]
  obtain ⟨w, hw, hwden, hwval⟩ := pyFloat_formatHundredths (100 * v.num / v.den)
  refine ⟨w, ?_, hwden, ?_⟩
  · rw [show scaleField ⟨B * 1, B⟩ v = formatHundredths (roundToHundredths (v.mul ⟨B * 1, B⟩))
      from rfl, hround]
    exact hw
  · rw [hwval]
    have hcast : ((100 * v.num / v.den : ℤ) : ℚ) = 100 * (v.num : ℚ) / (v.den : ℚ) := by
      rw [Int.cast_div hdvd (by exact_mod_cast hvden.ne' : ((v.den : ℤ) : ℚ) ≠ 0)]
      push_cast
      ring
    rw [hcast, Frac.toRat]
    have : (v.den : ℚ) ≠ 0 := by exact_mod_cast hvden.ne'
    field_simp
    ring

/-! ## Helper lemmas: traces of the result stream processor -/

lemma ackedDeltaSum_append (xs ys : List Effect) :
    ackedDeltaSum (xs ++ ys) = (ackedDeltaSum xs).add (ackedDeltaSum ys) := by
  induction xs with
  | nil => simp [ackedDeltaSum, Tally.zero_add]
  | cons e xs ih => simp [ackedDeltaSum, ih, Tally.add_assoc]

lemma Tally.sent_add_sub (a b x : Tally) : a.add ((b.sub a).add x) = b.add x := by
  cases a; cases b; cases x
  simp only [Tally.add, Tally.sub, Tally.mk.injEq]
  refine ⟨by ring, by ring, by ring⟩

lemma Tally.zero_le_sub {a b : Tally} (h : Tally.le a b) : Tally.le Tally.zero (b.sub a) := by
  obtain ⟨h1, h2, h3⟩ := h
  refine ⟨?_, ?_, ?_⟩ <;> simp only [Tally.sub, Tally.zero] <;> omega

/-- Invariants of the read loop over a stream whose score summaries are
cumulative: the `sent` checkpoint never exceeds the cumulative tally,
every report carries a nonnegative delta, and the acknowledged deltas sum
to exactly the advance of `sent` — nothing lost, nothing double-counted. -/
lemma processCutechessLoop_accounting (coord : ℕ → Option String) (lines : List String) :
    ∀ st : CState, Tally.le st.sent st.score →
      cumulativeFrom st.score lines = true →
      Tally.le (processCutechessLoop coord lines st).final.sent
          (processCutechessLoop coord lines st).final.score ∧
      (∀ e ∈ (processCutechessLoop coord lines st).trace, e.isReport = true →
        Tally.le Tally.zero e.delta) ∧
      st.sent.add (ackedDeltaSum (processCutechessLoop coord lines st).trace)
        = (processCutechessLoop coord lines st).final.sent := by
  induction lines with
  | nil =>
    intro st h1 _
    refine ⟨h1, ?_, ?_⟩
    · intro e he hrep
      simp only [processCutechessLoop] at he
      rcases List.mem_singleton.mp he with rfl
      exact absurd hrep (by decide)
    · simp [processCutechessLoop, ackedDeltaSum, Effect.isAcked, Tally.add_zero, Tally.zero_add]
  | cons l rest ih =>
    intro st h1 hcum
    simp only [processCutechessLoop]
    cases hempty : (pyStrip l.data).isEmpty with
    | true =>
      simp only [if_true]
      refine ⟨h1, ?_, ?_⟩
      · intro e he hrep
        rcases List.mem_singleton.mp he with rfl
        exact absurd hrep (by decide)
      · simp [ackedDeltaSum, Effect.isAcked, Tally.add_zero, Tally.zero_add]
    | false =>
      simp only [Bool.false_eq_true, if_false]
      cases hstart : pyStartsWith "Score of".data (pyStrip l.data) with
      | false =>
        have hrest : cumulativeFrom st.score rest = true := by
          have hsl : scoreOfLine l = none := by simp [scoreOfLine, hstart]
          simp only [cumulativeFrom, hsl] at hcum
          exact hcum
        split
        next st' effs heq =>
          simp only [stepLine, hstart, Bool.false_eq_true, if_false, StepRes.cont.injEq] at heq
          obtain ⟨hst', heffs⟩ := heq
          subst heffs
          have hsent : st'.sent = st.sent := by rw [← hst']
          have hscore : st'.score = st.score := by rw [← hst']
          obtain ⟨ihA, ihB, ihC⟩ :=
            ih st' (by rw [hsent, hscore]; exact h1) (by rw [hscore]; exact hrest)
          refine ⟨ihA, ?_, ?_⟩
          · intro e he hrep
            exact ihB e (by simpa using he) hrep
          · dsimp only
            rw [List.nil_append, ← hsent]
            exact ihC
        next st' effs heq =>
          simp only [stepLine, hstart, Bool.false_eq_true, if_false] at heq
          exact StepRes.noConfusion heq
        next st' e heq =>
          simp only [stepLine, hstart, Bool.false_eq_true, if_false] at heq
          exact StepRes.noConfusion heq
      | true =>
        cases hparse : parseScoreLine (pyStrip l.data) with
        | error err =>
          split
          next st' effs heq =>
            simp only [stepLine, hstart, if_true, hparse] at heq
            exact StepRes.noConfusion heq
          next st' effs heq =>
            simp only [stepLine, hstart, if_true, hparse] at heq
            exact StepRes.noConfusion heq
          next st' e heq =>
            simp only [stepLine, hstart, if_true, hparse, StepRes.failed.injEq] at heq
            obtain ⟨hst', _⟩ := heq
            have hsent : st'.sent = st.sent := by rw [← hst']
            have hscore : st'.score = st.score := by rw [← hst']
            refine ⟨by rw [hsent, hscore]; exact h1, ?_, ?_⟩
            · intro e he hrep
              simp at he
            · dsimp only
              rw [show ackedDeltaSum [] = Tally.zero from rfl, Tally.add_zero, hsent]
        | ok sc =>
          have hsl : scoreOfLine l = some sc := by
            simp [scoreOfLine, hstart, hparse, Except.toOption]
          simp only [cumulativeFrom, hsl, Bool.and_eq_true, Tally.leB_eq_true_iff] at hcum
          obtain ⟨hle, hrest⟩ := hcum
          have hsentle : Tally.le st.sent sc := Tally.le_trans h1 hle
          by_cases hbd : (Tally.sum sc - Tally.sum st.sent) % (REPORT_RATE : ℤ) = 0
          · by_cases hstop : pyUpperStr (reportResults (coord st.nreports)) = "STOP"
            · split
              next st' effs heq =>
                simp only [stepLine, hstart, if_true, hparse, hbd, if_pos rfl, hstop] at heq
                exact StepRes.noConfusion heq
              next st' effs heq =>
                simp only [stepLine, hstart, if_true, hparse, hbd, if_pos rfl, hstop,
                  StepRes.stopped.injEq] at heq
                obtain ⟨hst', heffs⟩ := heq
                subst heffs
                have hsent : st'.sent = st.sent := by rw [← hst']
                have hscore : st'.score = sc := by rw [← hst']
                refine ⟨by rw [hsent, hscore]; exact hsentle, ?_, ?_⟩
                · intro e he hrep
                  rcases List.mem_cons.mp he with rfl | hk
                  · exact Tally.zero_le_sub hsentle
                  · simp only [killCutechess, List.mem_cons, List.not_mem_nil, or_false] at hk
                    rcases hk with rfl | rfl | rfl
                    · exact absurd hrep (by decide)
                    · exact absurd hrep (by decide)
                    · exact absurd hrep (by decide)
                · dsimp only
                  rw [← hsent]
                  congr 1
                  simp [ackedDeltaSum, Effect.isAcked, killCutechess, hstop,
                    Tally.add_zero, Tally.zero_add]
              next st' e heq =>
                simp only [stepLine, hstart, if_true, hparse, hbd, if_pos rfl, hstop] at heq
                exact StepRes.noConfusion heq
            · by_cases hun : pyUpperStr (reportResults (coord st.nreports)) = "UNABLE"
              · split
                next st' effs heq =>
                  simp only [stepLine, hstart, if_true, hparse, hbd, if_pos rfl, if_neg hstop,
                    if_neg (not_not_intro hun), StepRes.cont.injEq] at heq
                  obtain ⟨hst', heffs⟩ := heq
                  subst heffs
                  have hsent : st'.sent = st.sent := by rw [← hst']
                  have hscore : st'.score = sc := by rw [← hst']
                  obtain ⟨ihA, ihB, ihC⟩ :=
                    ih st' (by rw [hsent, hscore]; exact hsentle) (by rw [hscore]; exact hrest)
                  refine ⟨ihA, ?_, ?_⟩
                  · intro e he hrep
                    rcases List.mem_cons.mp (by simpa using he) with rfl | hk
                    · exact Tally.zero_le_sub hsentle
                    · exact ihB e hk hrep
                  · dsimp only
                    rw [show ([Effect.report (sc.sub st.sent)
                        (st.crashes + if (pySubstr "disconnects".data (pyStrip l.data)
                          || pySubstr "connection stalls".data (pyStrip l.data)) = true
                          then 1 else 0)
                        (st.timelosses + if pySubstr "on time".data (pyStrip l.data) = true
                          then 1 else 0)
                        (reportResults (coord st.nreports))] : List Effect)
                        ++ (processCutechessLoop coord rest st').trace
                        = Effect.report (sc.sub st.sent) _ _ (reportResults (coord st.nreports))
                          :: (processCutechessLoop coord rest st').trace from rfl]
                    rw [show ackedDeltaSum (Effect.report (sc.sub st.sent) _ _
                        (reportResults (coord st.nreports))
                          :: (processCutechessLoop coord rest st').trace)
                        = (if (Effect.report (sc.sub st.sent) _ _
                            (reportResults (coord st.nreports))).isAcked
                            then sc.sub st.sent else Tally.zero).add
                          (ackedDeltaSum (processCutechessLoop coord rest st').trace) from rfl]
                    have hack : (Effect.report (sc.sub st.sent)
                        (st.crashes + if (pySubstr "disconnects".data (pyStrip l.data)
                          || pySubstr "connection stalls".data (pyStrip l.data)) = true
                          then 1 else 0)
                        (st.timelosses + if pySubstr "on time".data (pyStrip l.data) = true
                          then 1 else 0)
                        (reportResults (coord st.nreports))).isAcked = false := by
                      simp [Effect.isAcked, hun]
                    rw [hack, if_neg Bool.false_ne_true, Tally.zero_add, ← hsent]
                    exact ihC
                next st' effs heq =>
                  simp only [stepLine, hstart, if_true, hparse, hbd, if_pos rfl, if_neg hstop,
                    if_neg (not_not_intro hun)] at heq
                  exact StepRes.noConfusion heq
                next st' e heq =>
                  simp only [stepLine, hstart, if_true, hparse, hbd, if_pos rfl, if_neg hstop,
                    if_neg (not_not_intro hun)] at heq
                  exact StepRes.noConfusion heq
              · split
                next st' effs heq =>
                  simp only [stepLine, hstart, if_true, hparse, hbd, if_pos rfl, hstop, if_false,
                    if_pos hun, StepRes.cont.injEq] at heq
                  obtain ⟨hst', heffs⟩ := heq
                  subst heffs
                  have hsent : st'.sent = sc := by rw [← hst']
                  have hscore : st'.score = sc := by rw [← hst']
                  obtain ⟨ihA, ihB, ihC⟩ :=
                    ih st' (by rw [hsent, hscore]; exact Tally.le_refl sc)
                      (by rw [hscore]; exact hrest)
                  refine ⟨ihA, ?_, ?_⟩
                  · intro e he hrep
                    rcases List.mem_cons.mp (by simpa using he) with rfl | hk
                    · exact Tally.zero_le_sub hsentle
                    · exact ihB e hk hrep
                  · dsimp only
                    have hack : (Effect.report (sc.sub st.sent)
                        (st.crashes + if (pySubstr "disconnects".data (pyStrip l.data)
                          || pySubstr "connection stalls".data (pyStrip l.data)) = true
                          then 1 else 0)
                        (st.timelosses + if pySubstr "on time".data (pyStrip l.data) = true
                          then 1 else 0)
                        (reportResults (coord st.nreports))).isAcked = true := by
                      simp [Effect.isAcked, hstop, hun]
                    rw [List.singleton_append,
                      show ackedDeltaSum (Effect.report (sc.sub st.sent) _ _
                        (reportResults (coord st.nreports))
                          :: (processCutechessLoop coord rest st').trace)
                        = (if (Effect.report (sc.sub st.sent) _ _
                            (reportResults (coord st.nreports))).isAcked
                            then sc.sub st.sent else Tally.zero).add
                          (ackedDeltaSum (processCutechessLoop coord rest st').trace) from rfl,
                      hack, if_pos rfl]
                    rw [Tally.sent_add_sub, ← hsent]
                    exact ihC
                next st' effs heq =>
                  simp only [stepLine, hstart, if_true, hparse, hbd, if_pos rfl, hstop, if_false,
                    if_pos hun] at heq
                  exact StepRes.noConfusion heq
                next st' e heq =>
                  simp only [stepLine, hstart, if_true, hparse, hbd, if_pos rfl, hstop, if_false,
                    if_pos hun] at heq
                  exact StepRes.noConfusion heq
          · split
            next st' effs heq =>
              simp only [stepLine, hstart, if_true, hparse, hbd, if_false,
                StepRes.cont.injEq] at heq
              obtain ⟨hst', heffs⟩ := heq
              subst heffs
              have hsent : st'.sent = st.sent := by rw [← hst']
              have hscore : st'.score = sc := by rw [← hst']
              obtain ⟨ihA, ihB, ihC⟩ :=
                ih st' (by rw [hsent, hscore]; exact hsentle) (by rw [hscore]; exact hrest)
              refine ⟨ihA, ?_, ?_⟩
              · intro e he hrep
                exact ihB e (by simpa using he) hrep
              · dsimp only
                rw [List.nil_append, ← hsent]
                exact ihC
            next st' effs heq =>
              simp only [stepLine, hstart, if_true, hparse, hbd, if_false] at heq
              exact StepRes.noConfusion heq
            next st' e heq =>
              simp only [stepLine, hstart, if_true, hparse, hbd, if_false] at heq
              exact StepRes.noConfusion heq

/-- Exhaustive shape analysis of one loop iteration: it either continues
with no effect, continues after a single non-STOP report, returns after a
STOP report followed by the `killCutechess` actions, or raises. -/
lemma stepLine_shape (coord : ℕ → Option String) (st : CState) (line : List Char) :
    (∃ st', stepLine coord st line = .cont st' []) ∨
    (∃ st' d c t s, stepLine coord st line = .cont st' [Effect.report d c t s] ∧
      ¬ pyUpperStr s = "STOP") ∨
    (∃ st' d c t s, stepLine coord st line = .stopped st'
      (Effect.report d c t s :: killCutechess) ∧ pyUpperStr s = "STOP") ∨
    (∃ st' e, stepLine coord st line = .failed st' e) := by
  cases hstart : pyStartsWith "Score of".data line with
  | false =>
    refine Or.inl ?_
    simp only [stepLine, hstart, Bool.false_eq_true, if_false]
    exact ⟨_, rfl⟩
  | true =>
    cases hparse : parseScoreLine line with
    | error e =>
      refine Or.inr (Or.inr (Or.inr ?_))
      simp only [stepLine, hstart, if_true, hparse]
      exact ⟨_, _, rfl⟩
    | ok sc =>
      by_cases hbd : (Tally.sum sc - Tally.sum st.sent) % (REPORT_RATE : ℤ) = 0
      · by_cases hstop : pyUpperStr (reportResults (coord st.nreports)) = "STOP"
        · refine Or.inr (Or.inr (Or.inl ?_))
          simp only [stepLine, hstart, if_true, hparse, hbd, if_pos rfl, hstop]
          exact ⟨_, _, _, _, _, rfl, hstop⟩
        · by_cases hun : pyUpperStr (reportResults (coord st.nreports)) = "UNABLE"
          · refine Or.inr (Or.inl ?_)
            simp only [stepLine, hstart, if_true, hparse, hbd, if_pos rfl, if_neg hstop,
              if_neg (not_not_intro hun)]
            exact ⟨_, _, _, _, _, rfl, hstop⟩
          · refine Or.inr (Or.inl ?_)
            simp only [stepLine, hstart, if_true, hparse, hbd, if_pos rfl, if_neg hstop,
              if_pos hun]
            exact ⟨_, _, _, _, _, rfl, hstop⟩
      · refine Or.inl ?_
        simp only [stepLine, hstart, if_true, hparse, hbd, if_false]
        exact ⟨_, rfl⟩

/-- One iteration either leaves the `sent` checkpoint alone, or — exactly
when a report boundary was hit and acknowledged — advances it to the
parsed cumulative tally. -/
lemma stepLine_sent (coord : ℕ → Option String) (st : CState) (line : List Char) :
    (stepLine coord st line).state.sent = st.sent ∨
    ∃ sc, parseScoreLine line = .ok sc ∧ (stepLine coord st line).state.sent = sc ∧
      (Tally.sum sc - Tally.sum st.sent) % (REPORT_RATE : ℤ) = 0 := by
  cases hstart : pyStartsWith "Score of".data line with
  | false =>
    refine Or.inl ?_
    simp only [stepLine, hstart, Bool.false_eq_true, if_false, StepRes.state]
  | true =>
    cases hparse : parseScoreLine line with
    | error e =>
      refine Or.inl ?_
      simp only [stepLine, hstart, if_true, hparse, StepRes.state]
    | ok sc =>
      by_cases hbd : (Tally.sum sc - Tally.sum st.sent) % (REPORT_RATE : ℤ) = 0
      · by_cases hstop : pyUpperStr (reportResults (coord st.nreports)) = "STOP"
        · refine Or.inl ?_
          simp only [stepLine, hstart, if_true, hparse, hbd, if_pos rfl, hstop, StepRes.state]
        · by_cases hun : pyUpperStr (reportResults (coord st.nreports)) = "UNABLE"
          · refine Or.inl ?_
            simp only [stepLine, hstart, if_true, hparse, hbd, if_pos rfl, if_neg hstop,
              if_neg (not_not_intro hun), StepRes.state]
          · refine Or.inr ⟨sc, rfl, ?_, hbd⟩
            simp only [stepLine, hstart, if_true, hparse, hbd, if_pos rfl, if_neg hstop,
              if_pos hun, StepRes.state]
      · refine Or.inl ?_
        simp only [stepLine, hstart, if_true, hparse, hbd, if_false, StepRes.state]

/-- The checkpoint-total invariant: `sum(sent)` stays divisible by the
report rate throughout a run (it starts at zero and is only ever replaced
by a tally whose delta to it passed the `% REPORT_RATE == 0` test). -/
lemma processCutechessLoop_sent_mod (coord : ℕ → Option String) (lines : List String) :
    ∀ st : CState, Tally.sum st.sent % (REPORT_RATE : ℤ) = 0 →
      Tally.sum (processCutechessLoop coord lines st).final.sent % (REPORT_RATE : ℤ) = 0 := by
  induction lines with
  | nil => intro st h; exact h
  | cons l rest ih =>
    intro st h
    simp only [processCutechessLoop]
    cases hempty : (pyStrip l.data).isEmpty with
    | true => exact h
    | false =>
      simp only [Bool.false_eq_true, if_false]
      have hsent := stepLine_sent coord st (pyStrip l.data)
      split
      next st' effs heq =>
        rw [heq] at hsent
        simp only [StepRes.state] at hsent
        rcases hsent with hkeep | ⟨sc, _, hadv, hbd⟩
        · exact ih st' (by rw [hkeep]; exact h)
        · refine ih st' ?_
          rw [hadv]
          simp only [REPORT_RATE] at hbd h ⊢
          omega
      next st' effs heq =>
        rw [heq] at hsent
        simp only [StepRes.state] at hsent
        rcases hsent with hkeep | ⟨sc, _, hadv, hbd⟩
        · rw [hkeep]; exact h
        · rw [hadv]; simp only [REPORT_RATE] at hbd h ⊢; omega
      next st' e heq =>
        rw [heq] at hsent
        simp only [StepRes.state] at hsent
        rcases hsent with hkeep | ⟨sc, _, hadv, hbd⟩
        · rw [hkeep]; exact h
        · rw [hadv]; simp only [REPORT_RATE] at hbd h ⊢; omega

/-- The Python return value of `processCutechess` is `None` on every
path: both `return` statements are bare. -/
lemma processCutechessLoop_ret (coord : ℕ → Option String) (lines : List String) :
    ∀ st : CState, (processCutechessLoop coord lines st).ret = none := by
  induction lines with
  | nil => intro st; rfl
  | cons l rest ih =>
    intro st
    simp only [processCutechessLoop]
    cases hempty : (pyStrip l.data).isEmpty with
    | true => rfl
    | false =>
      simp only [Bool.false_eq_true, if_false]
      split
      next st' effs heq => exact ih st'
      next st' effs heq => rfl
      next st' e heq => rfl

/-- Abort monotonicity of a run: a report answered with the abort
sentinel is followed in the trace by exactly the `killCutechess` actions
— no further report — and the loop returns in the `aborted` state. -/
lemma processCutechessLoop_stop (coord : ℕ → Option String) (lines : List String) :
    ∀ (st : CState) (pre : List Effect) (e : Effect) (post : List Effect),
      (processCutechessLoop coord lines st).trace = pre ++ e :: post →
      e.isStopReport = true →
      post = killCutechess ∧ (processCutechessLoop coord lines st).kind = .aborted := by
  induction lines with
  | nil =>
    intro st pre e post h hstop
    simp only [processCutechessLoop] at h ⊢
    cases pre with
    | nil =>
      obtain ⟨he, -⟩ := List.cons.injEq .. ▸ h.symm
      rw [he] at hstop
      exact absurd hstop (by decide)
    | cons p pre' =>
      obtain ⟨-, htl⟩ := List.cons.injEq .. ▸ h.symm
      exact absurd htl.symm (by simp)
  | cons l rest ih =>
    intro st pre e post h hstop
    simp only [processCutechessLoop] at h ⊢
    by_cases hempty : (pyStrip l.data).isEmpty = true
    · rw [if_pos hempty] at h ⊢
      cases pre with
      | nil =>
        obtain ⟨he, -⟩ := List.cons.injEq .. ▸ h.symm
        rw [he] at hstop
        exact absurd hstop (by decide)
      | cons p pre' =>
        obtain ⟨-, htl⟩ := List.cons.injEq .. ▸ h.symm
        exact absurd htl.symm (by simp)
    · rw [if_neg hempty] at h ⊢
      rcases stepLine_shape coord st (pyStrip l.data) with
        ⟨st2, heq⟩ | ⟨st2, d, c, t, s, heq, hns⟩ | ⟨st2, d, c, t, s, heq, hs⟩ | ⟨st2, err, heq⟩
      · rw [heq] at h ⊢
        simp only [List.nil_append] at h ⊢
        exact ih st2 pre e post h hstop
      · rw [heq] at h ⊢
        simp only [List.singleton_append] at h ⊢
        cases pre with
        | nil =>
          obtain ⟨he, -⟩ := List.cons.injEq .. ▸ h.symm
          rw [he] at hstop
          simp only [Effect.isStopReport, decide_eq_true_eq] at hstop
          exact absurd hstop hns
        | cons p pre' =>
          obtain ⟨-, htl⟩ := List.cons.injEq .. ▸ h.symm
          exact ih st2 pre' e post htl.symm hstop
      · rw [heq] at h ⊢
        cases pre with
        | nil =>
          obtain ⟨-, htl⟩ := List.cons.injEq .. ▸ h.symm
          exact ⟨htl, rfl⟩
        | cons p pre' =>
          obtain ⟨-, htl⟩ := List.cons.injEq .. ▸ h.symm
          have hmem : e ∈ killCutechess := by
            rw [← htl]
            simp
          simp only [killCutechess, List.mem_cons, List.not_mem_nil, or_false] at hmem
          rcases hmem with rfl | rfl | rfl <;> exact absurd hstop (by decide)
      · rw [heq] at h ⊢
        exact absurd h.symm (by simp)

/-- On end of stream the loop waits for the process, returns `None`, and
never closes the stdout handle; the final wait is the last effect. -/
lemma processCutechessLoop_eof (coord : ℕ → Option String) (lines : List String) :
    ∀ st : CState, (processCutechessLoop coord lines st).kind = .eof →
      Effect.closeStdout ∉ (processCutechessLoop coord lines st).trace ∧
      ∃ pre, (processCutechessLoop coord lines st).trace = pre ++ [Effect.procWait] := by
  induction lines with
  | nil =>
    intro st _
    exact ⟨by simp [processCutechessLoop], [], rfl⟩
  | cons l rest ih =>
    intro st hkind
    simp only [processCutechessLoop] at hkind ⊢
    by_cases hempty : (pyStrip l.data).isEmpty = true
    · rw [if_pos hempty] at hkind ⊢
      exact ⟨by simp, [], rfl⟩
    · rw [if_neg hempty] at hkind ⊢
      rcases stepLine_shape coord st (pyStrip l.data) with
        ⟨st2, heq⟩ | ⟨st2, d, c, t, s, heq, hns⟩ | ⟨st2, d, c, t, s, heq, hs⟩ | ⟨st2, err, heq⟩
      · rw [heq] at hkind ⊢
        simp only [List.nil_append] at hkind ⊢
        exact ih st2 hkind
      · rw [heq] at hkind ⊢
        simp only at hkind
        obtain ⟨hnot, pre, hpre⟩ := ih st2 hkind
        refine ⟨?_, Effect.report d c t s :: pre, ?_⟩
        · simp only [List.singleton_append, List.mem_cons]
          rintro (hcontr | hcontr)
          · exact Effect.noConfusion hcontr
          · exact hnot hcontr
        · simp only [List.singleton_append, hpre, List.cons_append, List.nil_append]
      · rw [heq] at hkind
        simp only at hkind
        exact absurd hkind (by simp)
      · rw [heq] at hkind
        simp only at hkind
        exact absurd hkind (by simp)

/-! ## Claim theorems -/

/-- C1 (amended): over any output stream whose score summaries are
cumulative (componentwise nondecreasing from zero), the `sent` checkpoint
is componentwise at most the cumulative tally at the end of the run (and,
by the step theorems, at every report the payload is exactly the
nonnegative difference `cumulative - sent`); the sum of the acknowledged
deltas equals the final `sent` checkpoint — no acknowledged delta is ever
double-counted and no delta is lost.  The original claim's stronger
assertion that this sum equals the final *cumulative* tally fails when
the last report is unacknowledged (see the counterexample). -/
theorem openbench_C1_delta_accounting (coord : ℕ → Option String) (lines : List String)
    (hcum : cumulativeFrom Tally.zero lines = true) :
    Tally.le (processCutechess coord lines).final.sent
        (processCutechess coord lines).final.score ∧
    (∀ e ∈ (processCutechess coord lines).trace, e.isReport = true →
      Tally.le Tally.zero e.delta) ∧
    ackedDeltaSum (processCutechess coord lines).trace
      = (processCutechess coord lines).final.sent := by
  obtain ⟨hA, hB, hC⟩ :=
    processCutechessLoop_accounting coord lines initState (Tally.le_refl _) hcum
  refine ⟨hA, hB, ?_⟩
  have h0 : Tally.zero.add
      (ackedDeltaSum (processCutechessLoop coord lines initState).trace)
      = (processCutechessLoop coord lines initState).final.sent := hC
  rw [Tally.zero_add] at h0
  exact h0

theorem openbench_C1_witness :
    cumulativeFrom Tally.zero ["Score of dev vs base: 3 - 1 - 1  [0.600] 5"] = true ∧
    (Tally.le (processCutechess (fun _ => some "done")
          ["Score of dev vs base: 3 - 1 - 1  [0.600] 5"]).final.sent
        (processCutechess (fun _ => some "done")
          ["Score of dev vs base: 3 - 1 - 1  [0.600] 5"]).final.score ∧
      (∀ e ∈ (processCutechess (fun _ => some "done")
          ["Score of dev vs base: 3 - 1 - 1  [0.600] 5"]).trace, e.isReport = true →
        Tally.le Tally.zero e.delta) ∧
      ackedDeltaSum (processCutechess (fun _ => some "done")
          ["Score of dev vs base: 3 - 1 - 1  [0.600] 5"]).trace
        = (processCutechess (fun _ => some "done")
          ["Score of dev vs base: 3 - 1 - 1  [0.600] 5"]).final.sent) :=
  ⟨by decide, openbench_C1_delta_accounting _ _ (by decide)⟩

/-- C1 counterexample: on the perfectly cumulative stream that reports a
5-game tally `3-1-1` exactly once, with the coordinator unreachable (the
HTTP request raises, so `reportResults` yields `"Unable"`), the sum of
the acknowledged deltas is zero while the final cumulative tally is
`3-1-1` — the claim's equality `sum(acked deltas) = final cumulative
tally` is false as stated. -/
theorem openbench_C1_counterexample :
    cumulativeFrom Tally.zero ["Score of dev vs base: 3 - 1 - 1  [0.600] 5"] = true ∧
    (processCutechess (fun _ => none)
        ["Score of dev vs base: 3 - 1 - 1  [0.600] 5"]).final.score = ⟨3, 1, 1⟩ ∧
    ackedDeltaSum (processCutechess (fun _ => none)
        ["Score of dev vs base: 3 - 1 - 1  [0.600] 5"]).trace = Tally.zero ∧
    ackedDeltaSum (processCutechess (fun _ => none)
        ["Score of dev vs base: 3 - 1 - 1  [0.600] 5"]).trace ≠
      (processCutechess (fun _ => none)
        ["Score of dev vs base: 3 - 1 - 1  [0.600] 5"]).final.score := by
  decide

/-- C2: on a score-summary line, a report is sent exactly when the
parsed cumulative game count is a multiple of `REPORT_RATE` (under the
run invariant `sum(sent) % REPORT_RATE = 0`, proved in the last conjunct,
this is the code's `(sum(score) - sum(sent)) % REPORT_RATE == 0` test);
the report carries the delta tally `cumulative - sent` together with the
crash and timeloss counters accumulated since the last acknowledged
report; any other line sends nothing. -/
theorem openbench_C2_report_boundary (coord : ℕ → Option String) (st : CState)
    (line : List Char) (sc : Tally)
    (hmod : Tally.sum st.sent % (REPORT_RATE : ℤ) = 0)
    (hscore : pyStartsWith "Score of".data line = true)
    (hparse : parseScoreLine line = .ok sc) :
    (Tally.sum sc % (REPORT_RATE : ℤ) = 0 →
      ((stepLine coord st line).effects).filter Effect.isReport
        = [Effect.report (sc.sub st.sent)
            (st.crashes + (if pySubstr "disconnects".data line
                || pySubstr "connection stalls".data line then 1 else 0))
            (st.timelosses + (if pySubstr "on time".data line then 1 else 0))
            (reportResults (coord st.nreports))]) ∧
    (¬ Tally.sum sc % (REPORT_RATE : ℤ) = 0 →
      ((stepLine coord st line).effects).filter Effect.isReport = []) ∧
    (∀ (cs : List Char) (st2 : CState), pyStartsWith "Score of".data cs = false →
      ((stepLine coord st2 cs).effects).filter Effect.isReport = []) ∧
    (∀ lines : List String,
      Tally.sum (processCutechess coord lines).final.sent % (REPORT_RATE : ℤ) = 0) := by
  refine ⟨?_, ?_, ?_, ?_⟩
  · intro h
    have hbd : (Tally.sum sc - Tally.sum st.sent) % (REPORT_RATE : ℤ) = 0 := by
      simp only [REPORT_RATE] at hmod h ⊢
      omega
    by_cases hstop : pyUpperStr (reportResults (coord st.nreports)) = "STOP"
    · simp only [stepLine, hscore, if_true, hparse, hbd, if_pos rfl, hstop, StepRes.effects]
      simp [killCutechess, Effect.isReport]
    · by_cases hun : pyUpperStr (reportResults (coord st.nreports)) = "UNABLE"
      · simp only [stepLine, hscore, if_true, hparse, hbd, if_pos rfl, if_neg hstop,
          if_neg (not_not_intro hun), StepRes.effects]
        simp [Effect.isReport]
      · simp only [stepLine, hscore, if_true, hparse, hbd, if_pos rfl, if_neg hstop,
          if_pos hun, StepRes.effects]
        simp [Effect.isReport]
  · intro h
    have hbd : ¬ (Tally.sum sc - Tally.sum st.sent) % (REPORT_RATE : ℤ) = 0 := by
      simp only [REPORT_RATE] at hmod h ⊢
      omega
    simp only [stepLine, hscore, if_true, hparse, if_neg hbd, StepRes.effects,
      List.filter_nil]
  · intro cs st2 hns
    simp only [stepLine, hns, Bool.false_eq_true, if_false, StepRes.effects, List.filter_nil]
  · intro lines
    exact processCutechessLoop_sent_mod coord lines initState (by decide)

theorem openbench_C2_witness :
    Tally.sum initState.sent % (REPORT_RATE : ℤ) = 0 ∧
    pyStartsWith "Score of".data "Score of dev vs base: 3 - 1 - 1  [0.600] 5".data = true ∧
    parseScoreLine "Score of dev vs base: 3 - 1 - 1  [0.600] 5".data
      = .ok (⟨3, 1, 1⟩ : Tally) ∧
    ((Tally.sum (⟨3, 1, 1⟩ : Tally) % (REPORT_RATE : ℤ) = 0 →
      ((stepLine (fun _ => some "done") initState
          "Score of dev vs base: 3 - 1 - 1  [0.600] 5".data).effects).filter Effect.isReport
        = [Effect.report ((⟨3, 1, 1⟩ : Tally).sub initState.sent)
            (initState.crashes + (if pySubstr "disconnects".data
                  "Score of dev vs base: 3 - 1 - 1  [0.600] 5".data
                || pySubstr "connection stalls".data
                  "Score of dev vs base: 3 - 1 - 1  [0.600] 5".data then 1 else 0))
            (initState.timelosses + (if pySubstr "on time".data
                  "Score of dev vs base: 3 - 1 - 1  [0.600] 5".data then 1 else 0))
            (reportResults (some "done"))]) ∧
      (¬ Tally.sum (⟨3, 1, 1⟩ : Tally) % (REPORT_RATE : ℤ) = 0 →
        ((stepLine (fun _ => some "done") initState
            "Score of dev vs base: 3 - 1 - 1  [0.600] 5".data).effects).filter Effect.isReport
          = []) ∧
      (∀ (cs : List Char) (st2 : CState), pyStartsWith "Score of".data cs = false →
        ((stepLine (fun _ => some "done") st2 cs).effects).filter Effect.isReport = []) ∧
      (∀ lines : List String,
        Tally.sum (processCutechess (fun _ => some "done") lines).final.sent
          % (REPORT_RATE : ℤ) = 0)) :=
  ⟨by decide, by decide, by decide,
    openbench_C2_report_boundary (fun _ => some "done") initState _ ⟨3, 1, 1⟩
      (by decide) (by decide) (by decide)⟩

/-- C3: when a report boundary is hit and the coordinator reply (case-
insensitively) is the unreachable indication `"Unable"` — which is also
exactly what `reportResults` returns when the HTTP request raises, last
conjunct — the loop keeps `sent` and the crash/timeloss counters
untouched (beyond this line's own increments) and continues reading, so
the next report's delta is computed against the same old checkpoint. -/
theorem openbench_C3_unable_retains (coord : ℕ → Option String) (st : CState)
    (line : List Char) (sc : Tally)
    (hscore : pyStartsWith "Score of".data line = true)
    (hparse : parseScoreLine line = .ok sc)
    (hbd : (Tally.sum sc - Tally.sum st.sent) % (REPORT_RATE : ℤ) = 0)
    (hun : pyUpperStr (reportResults (coord st.nreports)) = "UNABLE") :
    (∃ st', stepLine coord st line = .cont st'
        [Effect.report (sc.sub st.sent) st'.crashes st'.timelosses
          (reportResults (coord st.nreports))] ∧
      st'.sent = st.sent ∧
      st'.score = sc ∧
      st'.crashes = st.crashes + (if pySubstr "disconnects".data line
        || pySubstr "connection stalls".data line then 1 else 0) ∧
      st'.timelosses = st.timelosses + (if pySubstr "on time".data line then 1 else 0)) ∧
    reportResults none = "Unable" := by
  have hstop : ¬ pyUpperStr (reportResults (coord st.nreports)) = "STOP" := by
    rw [hun]
    decide
  refine ⟨?_, rfl⟩
  simp only [stepLine, hscore, if_true, hparse, hbd, if_pos rfl, if_neg hstop,
    if_neg (not_not_intro hun)]
  exact ⟨_, rfl, rfl, rfl, rfl, rfl⟩

theorem openbench_C3_witness :
    pyStartsWith "Score of".data "Score of dev vs base: 3 - 1 - 1  [0.600] 5".data = true ∧
    parseScoreLine "Score of dev vs base: 3 - 1 - 1  [0.600] 5".data
      = .ok (⟨3, 1, 1⟩ : Tally) ∧
    (Tally.sum (⟨3, 1, 1⟩ : Tally) - Tally.sum initState.sent) % (REPORT_RATE : ℤ) = 0 ∧
    pyUpperStr (reportResults ((fun _ : ℕ => none) initState.nreports)) = "UNABLE" ∧
    ((∃ st', stepLine (fun _ => none) initState
          "Score of dev vs base: 3 - 1 - 1  [0.600] 5".data = .cont st'
          [Effect.report ((⟨3, 1, 1⟩ : Tally).sub initState.sent) st'.crashes st'.timelosses
            (reportResults ((fun _ : ℕ => none) initState.nreports))] ∧
        st'.sent = initState.sent ∧
        st'.score = ⟨3, 1, 1⟩ ∧
        st'.crashes = initState.crashes +
          (if pySubstr "disconnects".data "Score of dev vs base: 3 - 1 - 1  [0.600] 5".data
            || pySubstr "connection stalls".data
              "Score of dev vs base: 3 - 1 - 1  [0.600] 5".data then 1 else 0) ∧
        st'.timelosses = initState.timelosses +
          (if pySubstr "on time".data
            "Score of dev vs base: 3 - 1 - 1  [0.600] 5".data then 1 else 0)) ∧
      reportResults none = "Unable") :=
  ⟨by decide, by decide, by decide, by decide,
    openbench_C3_unable_retains (fun _ => none) initState _ ⟨3, 1, 1⟩
      (by decide) (by decide) (by decide) (by decide)⟩

/-- C4: once a report in a run's trace is answered with the abort
sentinel `"STOP"` (case-insensitively), the remainder of the trace is
exactly the `killCutechess` sequence — forceful termination of the match
process, a wait, and closing its output — so no further report is ever
sent, and `processCutechess` returns in the aborted state. -/
theorem openbench_C4_abort_monotonic (coord : ℕ → Option String) (lines : List String)
    (pre : List Effect) (e : Effect) (post : List Effect)
    (htrace : (processCutechess coord lines).trace = pre ++ e :: post)
    (hstop : e.isStopReport = true) :
    post = killCutechess ∧
    (∀ e2 ∈ post, e2.isReport = false) ∧
    Effect.kill ∈ post ∧
    (processCutechess coord lines).kind = .aborted := by
  obtain ⟨hpost, hkind⟩ :=
    processCutechessLoop_stop coord lines initState pre e post htrace hstop
  subst hpost
  refine ⟨rfl, ?_, by simp [killCutechess], hkind⟩
  intro e2 he2
  simp only [killCutechess, List.mem_cons, List.not_mem_nil, or_false] at he2
  rcases he2 with rfl | rfl | rfl <;> rfl

theorem openbench_C4_witness :
    (processCutechess (fun _ => some "STOP")
        ["Score of dev vs base: 3 - 1 - 1  [0.600] 5"]).trace
      = [] ++ Effect.report ⟨3, 1, 1⟩ 0 0 "STOP" ::
          [Effect.kill, Effect.procWait, Effect.closeStdout] ∧
    (Effect.report ⟨3, 1, 1⟩ 0 0 "STOP").isStopReport = true ∧
    ([Effect.kill, Effect.procWait, Effect.closeStdout] = killCutechess ∧
      (∀ e2 ∈ [Effect.kill, Effect.procWait, Effect.closeStdout], e2.isReport = false) ∧
      Effect.kill ∈ [Effect.kill, Effect.procWait, Effect.closeStdout] ∧
      (processCutechess (fun _ => some "STOP")
        ["Score of dev vs base: 3 - 1 - 1  [0.600] 5"]).kind = .aborted) :=
  ⟨by decide, by decide,
    openbench_C4_abort_monotonic (fun _ => some "STOP")
      ["Score of dev vs base: 3 - 1 - 1  [0.600] 5"] []
      (Effect.report ⟨3, 1, 1⟩ 0 0 "STOP")
      [Effect.kill, Effect.procWait, Effect.closeStdout] (by decide) (by decide)⟩

/-- C8 (amended): when a run ends at end-of-stream (an empty read), the
loop waits for the process — the trace ends in the wait — but it does
*not* release the output handle (no `closeStdout` in the trace) and it
returns `None` rather than the final tally (both `return` statements of
`processCutechess` are bare, and `processWorkload` ignores the value). -/
theorem openbench_C8_eof_behavior (coord : ℕ → Option String) (lines : List String)
    (hk : (processCutechess coord lines).kind = .eof) :
    (processCutechess coord lines).ret = none ∧
    Effect.closeStdout ∉ (processCutechess coord lines).trace ∧
    ∃ pre, (processCutechess coord lines).trace = pre ++ [Effect.procWait] := by
  obtain ⟨hnot, hpre⟩ := processCutechessLoop_eof coord lines initState hk
  exact ⟨processCutechessLoop_ret coord lines initState, hnot, hpre⟩

theorem openbench_C8_witness :
    (processCutechess (fun _ => some "done")
        ["Score of dev vs base: 1 - 0 - 0  [1.000] 1"]).kind = .eof ∧
    ((processCutechess (fun _ => some "done")
        ["Score of dev vs base: 1 - 0 - 0  [1.000] 1"]).ret = none ∧
      Effect.closeStdout ∉ (processCutechess (fun _ => some "done")
        ["Score of dev vs base: 1 - 0 - 0  [1.000] 1"]).trace ∧
      ∃ pre, (processCutechess (fun _ => some "done")
        ["Score of dev vs base: 1 - 0 - 0  [1.000] 1"]).trace = pre ++ [Effect.procWait]) :=
  ⟨by decide,
    openbench_C8_eof_behavior (fun _ => some "done")
      ["Score of dev vs base: 1 - 0 - 0  [1.000] 1"] (by decide)⟩

/-- C8 counterexample: a run that reaches end-of-stream with a nonzero
cumulative tally waits for the process but performs no `closeStdout`
and returns `None`, not the tally — refuting the claim that the output
handle is released and the final cumulative tally is returned. -/
theorem openbench_C8_counterexample :
    (processCutechess (fun _ => some "done")
        ["Score of dev vs base: 1 - 0 - 0  [1.000] 1"]).kind = .eof ∧
    (processCutechess (fun _ => some "done")
        ["Score of dev vs base: 1 - 0 - 0  [1.000] 1"]).final.score = ⟨1, 0, 0⟩ ∧
    Effect.closeStdout ∉ (processCutechess (fun _ => some "done")
        ["Score of dev vs base: 1 - 0 - 0  [1.000] 1"]).trace ∧
    (processCutechess (fun _ => some "done")
        ["Score of dev vs base: 1 - 0 - 0  [1.000] 1"]).ret = none ∧
    (processCutechess (fun _ => some "done")
        ["Score of dev vs base: 1 - 0 - 0  [1.000] 1"]).ret ≠
      some (processCutechess (fun _ => some "done")
        ["Score of dev vs base: 1 - 0 - 0  [1.000] 1"]).final.score := by
  decide

/-- C9 (amended): one iteration of the polling loop catches every
ordinary exception (a failed workload fetch, a malformed payload, or any
exception from the match phase), logging and sleeping before the next
poll; but the process exits not only on credential failure (and operator
interrupt) — it also exits when the opening-book verification fails,
because that path calls `sys.exit()` (Client.py:420) and `SystemExit` is
not caught by `except Exception`. -/
theorem openbench_C9_exit_conditions (inp : IterationInput) :
    (mainIteration inp = .processExit ↔
      inp.fetch = .ok "Bad Credentials" ∨
      (∃ s, inp.fetch = .ok s ∧ s ≠ "None" ∧ s ≠ "Bad Credentials" ∧
        inp.parseOk = true ∧ inp.bookOk = false)) ∧
    (∀ msg, inp.fetch = .error msg → mainIteration inp = .caughtRetry) ∧
    (∀ s, inp.fetch = .ok s → s ≠ "None" → s ≠ "Bad Credentials" → inp.parseOk = false →
      mainIteration inp = .caughtRetry) ∧
    (∀ s msg, inp.fetch = .ok s → s ≠ "None" → s ≠ "Bad Credentials" → inp.parseOk = true →
      inp.bookOk = true → inp.body = .error msg → mainIteration inp ≠ .processExit) := by
  obtain ⟨fetch, parseOk, bookOk, devnps, basenps, body⟩ := inp
  cases fetch with
  | error msg =>
    refine ⟨?_, ?_, ?_, ?_⟩
    · simp [mainIteration, completeWorkload]
    · intro m _
      simp [mainIteration, completeWorkload]
    · intro s hcontr
      exact absurd hcontr (by simp)
    · intro s m hcontr
      exact absurd hcontr (by simp)
  | ok data =>
    by_cases hnone : data = "None"
    · subst hnone
      refine ⟨?_, ?_, ?_, ?_⟩
      · simp [mainIteration, completeWorkload]
      · intro m hcontr
        exact absurd hcontr (by simp)
      · intro s hs hne _ _
        exact absurd (Except.ok.inj hs).symm hne
      · intro s m hs hne _ _ _ _
        exact absurd (Except.ok.inj hs).symm hne
    · by_cases hbad : data = "Bad Credentials"
      · subst hbad
        refine ⟨?_, ?_, ?_, ?_⟩
        · simp [mainIteration, completeWorkload, hnone]
        · intro m hcontr
          exact absurd hcontr (by simp)
        · intro s hs hne hnb _
          exact absurd (Except.ok.inj hs).symm hnb
        · intro s m hs hne hnb _ _ _
          exact absurd (Except.ok.inj hs).symm hnb
      · cases parseOk with
        | false =>
          refine ⟨?_, ?_, ?_, ?_⟩
          · simp [mainIteration, completeWorkload, hnone, hbad]
          · intro m hcontr
            exact absurd hcontr (by simp)
          · intro s _ _ _ _
            simp [mainIteration, completeWorkload, hnone, hbad]
          · intro s m _ _ _ hcontr
            exact absurd hcontr (by simp)
        | true =>
          cases bookOk with
          | false =>
            refine ⟨?_, ?_, ?_, ?_⟩
            · constructor
              · intro _
                exact Or.inr ⟨data, rfl, hnone, hbad, rfl, rfl⟩
              · intro _
                simp [mainIteration, completeWorkload, processWorkload, hnone, hbad]
            · intro m hcontr
              exact absurd hcontr (by simp)
            · intro s hs _ _ hcontr
              exact absurd hcontr (by simp)
            · intro s m _ _ _ _ hcontr
              exact absurd hcontr (by simp)
          | true =>
            by_cases hnps : devnps = none ∨ basenps = none
            · refine ⟨?_, ?_, ?_, ?_⟩
              · constructor
                · intro hcontr
                  simp [mainIteration, completeWorkload, processWorkload, hnone, hbad,
                    hnps] at hcontr
                · rintro (hcontr | ⟨s, hs, _, _, _, hcontr⟩)
                  · exact absurd (Except.ok.inj hcontr) hbad
                  · exact Bool.noConfusion hcontr
              · intro m hcontr
                exact absurd hcontr (by simp)
              · intro s hs _ _ hcontr
                exact absurd hcontr (by simp)
              · intro s m _ _ _ _ _ _
                simp [mainIteration, completeWorkload, processWorkload, hnone, hbad, hnps]
            · cases body with
              | ok u =>
                refine ⟨?_, ?_, ?_, ?_⟩
                · constructor
                  · intro hcontr
                    simp [mainIteration, completeWorkload, processWorkload, hnone, hbad,
                      hnps, Except.mapError] at hcontr
                  · rintro (hcontr | ⟨s, hs, _, _, _, hcontr⟩)
                    · exact absurd (Except.ok.inj hcontr) hbad
                    · exact Bool.noConfusion hcontr
                · intro m hcontr
                  exact absurd hcontr (by simp)
                · intro s hs _ _ hcontr
                  exact absurd hcontr (by simp)
                · intro s m _ _ _ _ _ hcontr
                  exact absurd hcontr (by simp)
              | error msg =>
                refine ⟨?_, ?_, ?_, ?_⟩
                · constructor
                  · intro hcontr
                    simp [mainIteration, completeWorkload, processWorkload, hnone, hbad,
                      hnps, Except.mapError] at hcontr
                  · rintro (hcontr | ⟨s, hs, _, _, _, hcontr⟩)
                    · exact absurd (Except.ok.inj hcontr) hbad
                    · exact Bool.noConfusion hcontr
                · intro m hcontr
                  exact absurd hcontr (by simp)
                · intro s hs _ _ hcontr
                  exact absurd hcontr (by simp)
                · intro s m _ _ _ _ _ _
                  simp [mainIteration, completeWorkload, processWorkload, hnone, hbad,
                    hnps, Except.mapError]

theorem openbench_C9_witness :
    mainIteration ⟨Except.ok "w1", true, true, some ⟨1, 1⟩, some ⟨1, 1⟩,
        Except.error "match phase blew up"⟩ ≠ .processExit :=
  (openbench_C9_exit_conditions
      ⟨Except.ok "w1", true, true, some ⟨1, 1⟩, some ⟨1, 1⟩,
        Except.error "match phase blew up"⟩).2.2.2
    "w1" "match phase blew up" rfl (by decide) (by decide) rfl rfl rfl

/-- C9 counterexample: an iteration whose workload is fetched and parsed
but whose opening-book verification fails makes the worker process exit
(`sys.exit()` at Client.py:420 escapes `except Exception`), even though
this is a per-workload verification failure and not a credential failure
or operator interrupt — refuting "the worker process never exits for any
other cause". -/
theorem openbench_C9_counterexample :
    mainIteration ⟨Except.ok "workload", true, false, some ⟨1, 1⟩, some ⟨1, 1⟩,
        Except.ok ()⟩ = .processExit ∧
    ("workload" : String) ≠ "Bad Credentials" ∧
    completeWorkload ⟨Except.ok "workload", true, false, some ⟨1, 1⟩, some ⟨1, 1⟩,
        Except.ok ()⟩ = .error .systemExit := by
  refine ⟨rfl, by decide, rfl⟩

/-- Helper: two distinct first components force at least two distinct
entries in the deduplicated bench list. -/
lemma one_lt_dedup_length {l : List ℤ} {x y : ℤ} (hx : x ∈ l) (hy : y ∈ l) (hxy : x ≠ y) :
    1 < l.dedup.length := by
  by_contra hle
  have hx' : x ∈ l.dedup := List.mem_dedup.mpr hx
  have hy' : y ∈ l.dedup := List.mem_dedup.mpr hy
  match hd : l.dedup with
  | [] =>
    rw [hd] at hx'
    exact absurd hx' (List.not_mem_nil x)
  | [a] =>
    rw [hd] at hx' hy'
    exact hxy ((List.mem_singleton.mp hx').trans (List.mem_singleton.mp hy').symm)
  | a :: b :: rest =>
    rw [hd] at hle
    simp at hle

/-- C7: the multi-lane benchmark returns the `(0, 0)` sentinel exactly
when the lanes disagree on `benchCount`, and on consensus returns the
common bench together with the arithmetic mean of the lanes'
nodes-per-second values; in particular the two examples from the spec. -/
theorem openbench_C7_bench_consensus (d : List (ℤ × ℤ)) (b0 n0 : ℤ) (rest : List (ℤ × ℤ))
    (hd : d = (b0, n0) :: rest) :
    ((∃ p ∈ d, ∃ q ∈ d, p.1 ≠ q.1) →
      computeMultiThreadedBenchmark d = some (0, Frac.ofInt 0)) ∧
    ((∀ p ∈ d, p.1 = b0) →
      computeMultiThreadedBenchmark d
          = some (b0, ⟨(d.map Prod.snd).sum, (d.length : ℤ)⟩) ∧
        (⟨(d.map Prod.snd).sum, (d.length : ℤ)⟩ : Frac).toRat
          = (((d.map Prod.snd).sum : ℤ) : ℚ) / (d.length : ℚ)) ∧
    computeMultiThreadedBenchmark
        [(23074819, 900000), (23074819, 950000), (23074819, 1000000)]
      = some (23074819, ⟨2850000, 3⟩) ∧
    (⟨2850000, 3⟩ : Frac).toRat = 950000 ∧
    computeMultiThreadedBenchmark [(100, 0), (101, 0)] = some (0, Frac.ofInt 0) := by
  subst hd
  refine ⟨?_, ?_, by decide, by norm_num [Frac.toRat], by decide⟩
  · rintro ⟨p, hp, q, hq, hpq⟩
    have hone : 1 < (((b0, n0) :: rest).map Prod.fst).dedup.length :=
      one_lt_dedup_length (List.mem_map_of_mem Prod.fst hp)
        (List.mem_map_of_mem Prod.fst hq) hpq
    simp only [computeMultiThreadedBenchmark]
    rw [if_pos hone]
  · intro hall
    have hrepl : ((b0, n0) :: rest).map Prod.fst
        = List.replicate (((b0, n0) :: rest).map Prod.fst).length b0 := by
      refine List.eq_replicate_of_mem ?_
      intro b hb
      rcases List.mem_map.mp hb with ⟨p, hp, hpb⟩
      rw [← hpb]
      exact hall p hp
    have hded : (((b0, n0) :: rest).map Prod.fst).dedup = [b0] := by
      rw [hrepl]
      exact List.replicate_dedup (by simp)
    have hone : ¬ 1 < (((b0, n0) :: rest).map Prod.fst).dedup.length := by
      rw [hded]
      simp
    refine ⟨?_, rfl⟩
    simp only [computeMultiThreadedBenchmark]
    rw [if_neg hone, List.length_map]

theorem openbench_C7_witness :
    computeMultiThreadedBenchmark [((7 : ℤ), (4 : ℤ)), (7, 6)] = some (7, ⟨10, 2⟩) :=
  ((openbench_C7_bench_consensus [(7, 4), (7, 6)] 7 4 [(7, 6)] rfl).2.1 (by decide)).1

/-- C10: the scaler's `factor = int(data['test']['nps']) / nps` has no
zero guard — a zero measured speed raises `ZeroDivisionError` before any
time control is produced — and `nps = 0` is reachable: when every
benchmark lane fails, each reports `(0, 0)`, the lanes agree on bench 0,
and an engine whose declared bench is 0 passes `verifyEngine` with speed
0; `processWorkload` then calls the scaler with `(0 + 0) / 2`. -/
theorem openbench_C10_zero_nps_division (n : ℕ) (hn : 0 < n) (tc : String) (npsBaseline : ℤ) :
    (∃ nps : Frac, verifyEngine 0 (List.replicate n ((0 : ℤ), (0 : ℤ))) = some nps ∧
      nps.num = 0 ∧
      computeAdjustedTimecontrol npsBaseline (workloadNps nps nps) tc
        = .error .zeroDivisionError) ∧
    (∀ nps2 : Frac, nps2.num = 0 →
      computeAdjustedTimecontrol npsBaseline nps2 tc = .error .zeroDivisionError) := by
  have hzero : ∀ nps2 : Frac, nps2.num = 0 →
      computeAdjustedTimecontrol npsBaseline nps2 tc = .error .zeroDivisionError := by
    intro nps2 h2
    simp [computeAdjustedTimecontrol, h2]
  refine ⟨?_, hzero⟩
  obtain ⟨m, rfl⟩ : ∃ m, n = m + 1 := ⟨n - 1, by omega⟩
  have hrepl : List.replicate (m + 1) ((0 : ℤ), (0 : ℤ))
      = (0, 0) :: List.replicate m ((0 : ℤ), (0 : ℤ)) := rfl
  have hfst : (List.replicate (m + 1) ((0 : ℤ), (0 : ℤ))).map Prod.fst
      = List.replicate (m + 1) (0 : ℤ) := by
    simp [List.map_replicate]
  have hded : ((List.replicate (m + 1) ((0 : ℤ), (0 : ℤ))).map Prod.fst).dedup = [0] := by
    rw [hfst]
    exact List.replicate_dedup (by simp)
  have hbench : computeMultiThreadedBenchmark (List.replicate (m + 1) ((0 : ℤ), (0 : ℤ)))
      = some (0, ⟨((List.replicate (m + 1) ((0 : ℤ), (0 : ℤ))).map Prod.snd).sum,
          ((List.replicate (m + 1) ((0 : ℤ), (0 : ℤ))).map Prod.snd).length⟩) := by
    rw [hrepl]
    simp only [computeMultiThreadedBenchmark]
    rw [if_neg ?hlt]
    case hlt =>
      rw [← hrepl, hded]
      simp
  have hsum : ((List.replicate (m + 1) ((0 : ℤ), (0 : ℤ))).map Prod.snd).sum = 0 := by
    simp [List.map_replicate]
  refine ⟨⟨0, ((List.replicate (m + 1) ((0 : ℤ), (0 : ℤ))).map Prod.snd).length⟩, ?_, rfl, ?_⟩
  · simp only [verifyEngine, hbench, hsum]
    simp
  · exact hzero _ (by simp [workloadNps, Frac.add])

theorem openbench_C10_witness :
    0 < 2 ∧
    ((∃ nps : Frac, verifyEngine 0 (List.replicate 2 ((0 : ℤ), (0 : ℤ))) = some nps ∧
        nps.num = 0 ∧
        computeAdjustedTimecontrol 1000000 (workloadNps nps nps) "40/60+0.5"
          = .error .zeroDivisionError) ∧
      (∀ nps2 : Frac, nps2.num = 0 →
        computeAdjustedTimecontrol 1000000 nps2 "40/60+0.5" = .error .zeroDivisionError)) :=
  ⟨by decide, openbench_C10_zero_nps_division 2 (by decide) "40/60+0.5" 1000000⟩

/-- C5: the time-control scaler handles exactly the three grammars —
`"<moves>/<start>+<inc>"` (both fields scaled), `"<moves>/<start>"`
(start only) and `"<start>+<inc>"` (both scaled) — multiplying each
field by `speedFactor = baselineNps / measuredNps` (first conjunct),
rounding to 2 decimal places half-to-even and reassembling; with the
spec's two concrete examples. -/
theorem openbench_C5_timecontrol_grammars (npsB : ℤ) (nps : Frac)
    (hn : ¬ nps.num = 0) (hden : ¬ nps.den = 0)
    (m s i : List Char)
    (hm1 : '/' ∉ m) (hm2 : '+' ∉ m)
    (hs1 : '/' ∉ s) (hs2 : '+' ∉ s)
    (hi1 : '/' ∉ i) (hi2 : '+' ∉ i)
    (vs vi : Frac) (hvs : pyFloat s = some vs) (hvi : pyFloat i = some vi) :
    (Frac.toRat ⟨npsB * nps.den, nps.num⟩ = (npsB : ℚ) / nps.toRat) ∧
    computeAdjustedTimecontrol npsB nps ⟨m ++ '/' :: (s ++ '+' :: i)⟩
      = .ok (⟨m⟩ ++ "/" ++ scaleField ⟨npsB * nps.den, nps.num⟩ vs ++ "+"
        ++ scaleField ⟨npsB * nps.den, nps.num⟩ vi) ∧
    computeAdjustedTimecontrol npsB nps ⟨m ++ '/' :: s⟩
      = .ok (⟨m⟩ ++ "/" ++ scaleField ⟨npsB * nps.den, nps.num⟩ vs) ∧
    computeAdjustedTimecontrol npsB nps ⟨s ++ '+' :: i⟩
      = .ok (scaleField ⟨npsB * nps.den, nps.num⟩ vs ++ "+"
        ++ scaleField ⟨npsB * nps.den, nps.num⟩ vi) ∧
    computeAdjustedTimecontrol 1000000 ⟨500000, 1⟩ "40/60+0.5" = .ok "40/120.0+1.0" ∧
    computeAdjustedTimecontrol 500000 ⟨1000000, 1⟩ "60+0.5" = .ok "30.0+0.25" := by
  refine ⟨?_, computeAdjustedTimecontrol_mvs_inc npsB nps hn hm1 hm2 hs1 hs2 hi1 hi2 hvs hvi,
    computeAdjustedTimecontrol_mvs npsB nps hn hm1 hm2 hs1 hs2 hvs,
    computeAdjustedTimecontrol_start_inc npsB nps hn hs1 hs2 hi1 hi2 hvs hvi,
    by decide, by decide⟩
  rw [Frac.toRat_mk, Frac.toRat]
  have h1 : ((nps.num : ℤ) : ℚ) ≠ 0 := by exact_mod_cast hn
  have h2 : ((nps.den : ℤ) : ℚ) ≠ 0 := by exact_mod_cast hden
  field_simp

theorem openbench_C5_witness :
    ¬ (⟨500000, 1⟩ : Frac).num = 0 ∧
    ¬ (⟨500000, 1⟩ : Frac).den = 0 ∧
    pyFloat "60".data = some ⟨60, 1⟩ ∧
    pyFloat "0.5".data = some ⟨5, 10⟩ ∧
    ((Frac.toRat ⟨1000000 * (⟨500000, 1⟩ : Frac).den, (⟨500000, 1⟩ : Frac).num⟩
        = (1000000 : ℚ) / (⟨500000, 1⟩ : Frac).toRat) ∧
      computeAdjustedTimecontrol 1000000 ⟨500000, 1⟩
          ⟨"40".data ++ '/' :: ("60".data ++ '+' :: "0.5".data)⟩
        = .ok (⟨"40".data⟩ ++ "/"
            ++ scaleField ⟨1000000 * (⟨500000, 1⟩ : Frac).den, (⟨500000, 1⟩ : Frac).num⟩ ⟨60, 1⟩
            ++ "+"
            ++ scaleField ⟨1000000 * (⟨500000, 1⟩ : Frac).den, (⟨500000, 1⟩ : Frac).num⟩
              ⟨5, 10⟩) ∧
      computeAdjustedTimecontrol 1000000 ⟨500000, 1⟩ ⟨"40".data ++ '/' :: "60".data⟩
        = .ok (⟨"40".data⟩ ++ "/"
            ++ scaleField ⟨1000000 * (⟨500000, 1⟩ : Frac).den, (⟨500000, 1⟩ : Frac).num⟩
              ⟨60, 1⟩) ∧
      computeAdjustedTimecontrol 1000000 ⟨500000, 1⟩ ⟨"60".data ++ '+' :: "0.5".data⟩
        = .ok (scaleField ⟨1000000 * (⟨500000, 1⟩ : Frac).den, (⟨500000, 1⟩ : Frac).num⟩ ⟨60, 1⟩
            ++ "+"
            ++ scaleField ⟨1000000 * (⟨500000, 1⟩ : Frac).den, (⟨500000, 1⟩ : Frac).num⟩
              ⟨5, 10⟩) ∧
      computeAdjustedTimecontrol 1000000 ⟨500000, 1⟩ "40/60+0.5" = .ok "40/120.0+1.0" ∧
      computeAdjustedTimecontrol 500000 ⟨1000000, 1⟩ "60+0.5" = .ok "30.0+0.25") :=
  ⟨by decide, by decide, by decide, by decide,
    openbench_C5_timecontrol_grammars 1000000 ⟨500000, 1⟩ (by decide) (by decide)
      "40".data "60".data "0.5".data (by decide) (by decide) (by decide) (by decide)
      (by decide) (by decide) ⟨60, 1⟩ ⟨5, 10⟩ (by decide) (by decide)⟩

/-- C6 (amended): with `speedFactor = 1` (baseline equals measured
speed), scaling is numerically the identity for every field that is an
integer multiple of one hundredth (at most 2 decimal places): in each of
the three grammars the output fields parse back — with the same
`float()` grammar — to exactly the input values.  A field with more than
2 decimals is rounded by `round(x, 2)` and changes value even at factor
1 (see the counterexample). -/
theorem openbench_C6_identity_on_hundredths (B : ℤ) (hB : 0 < B)
    (m s i : List Char)
    (hm1 : '/' ∉ m) (hm2 : '+' ∉ m)
    (hs1 : '/' ∉ s) (hs2 : '+' ∉ s)
    (hi1 : '/' ∉ i) (hi2 : '+' ∉ i)
    (vs vi : Frac) (hvs : pyFloat s = some vs) (hvi : pyFloat i = some vi)
    (hvsden : 0 < vs.den) (hviden : 0 < vi.den)
    (hvs100 : vs.den ∣ 100 * vs.num) (hvi100 : vi.den ∣ 100 * vi.num) :
    (∃ s' i' ws wi,
      computeAdjustedTimecontrol B ⟨B, 1⟩ ⟨m ++ '/' :: (s ++ '+' :: i)⟩
          = .ok (⟨m⟩ ++ "/" ++ s' ++ "+" ++ i') ∧
        pyFloat s'.data = some ws ∧ ws.toRat = vs.toRat ∧
        pyFloat i'.data = some wi ∧ wi.toRat = vi.toRat) ∧
    (∃ s' ws,
      computeAdjustedTimecontrol B ⟨B, 1⟩ ⟨m ++ '/' :: s⟩ = .ok (⟨m⟩ ++ "/" ++ s') ∧
        pyFloat s'.data = some ws ∧ ws.toRat = vs.toRat) ∧
    (∃ s' i' ws wi,
      computeAdjustedTimecontrol B ⟨B, 1⟩ ⟨s ++ '+' :: i⟩ = .ok (s' ++ "+" ++ i') ∧
        pyFloat s'.data = some ws ∧ ws.toRat = vs.toRat ∧
        pyFloat i'.data = some wi ∧ wi.toRat = vi.toRat) := by
  have hn : ¬ (⟨B, 1⟩ : Frac).num = 0 := by
    simp only [Frac.num]
    omega
  obtain ⟨ws, hws, hwsden, hwsval⟩ := scaleField_identity hB hvsden hvs100
  obtain ⟨wi, hwi, hwiden, hwival⟩ := scaleField_identity hB hviden hvi100
  refine ⟨⟨scaleField ⟨B * 1, B⟩ vs, scaleField ⟨B * 1, B⟩ vi, ws, wi, ?_, hws, hwsval,
      hwi, hwival⟩,
    ⟨scaleField ⟨B * 1, B⟩ vs, ws, ?_, hws, hwsval⟩,
    ⟨scaleField ⟨B * 1, B⟩ vs, scaleField ⟨B * 1, B⟩ vi, ws, wi, ?_, hws, hwsval,
      hwi, hwival⟩⟩
  · exact computeAdjustedTimecontrol_mvs_inc B ⟨B, 1⟩ hn hm1 hm2 hs1 hs2 hi1 hi2 hvs hvi
  · exact computeAdjustedTimecontrol_mvs B ⟨B, 1⟩ hn hm1 hm2 hs1 hs2 hvs
  · exact computeAdjustedTimecontrol_start_inc B ⟨B, 1⟩ hn hs1 hs2 hi1 hi2 hvs hvi

theorem openbench_C6_witness :
    (0 : ℤ) < 3 ∧
    pyFloat "60".data = some ⟨60, 1⟩ ∧
    pyFloat "0.25".data = some ⟨25, 100⟩ ∧
    (0 : ℤ) < (⟨60, 1⟩ : Frac).den ∧ (0 : ℤ) < (⟨25, 100⟩ : Frac).den ∧
    (⟨60, 1⟩ : Frac).den ∣ 100 * (⟨60, 1⟩ : Frac).num ∧
    (⟨25, 100⟩ : Frac).den ∣ 100 * (⟨25, 100⟩ : Frac).num ∧
    ((∃ s' i' ws wi,
      computeAdjustedTimecontrol 3 ⟨3, 1⟩
          ⟨"40".data ++ '/' :: ("60".data ++ '+' :: "0.25".data)⟩
          = .ok (⟨"40".data⟩ ++ "/" ++ s' ++ "+" ++ i') ∧
        pyFloat s'.data = some ws ∧ ws.toRat = (⟨60, 1⟩ : Frac).toRat ∧
        pyFloat i'.data = some wi ∧ wi.toRat = (⟨25, 100⟩ : Frac).toRat) ∧
    (∃ s' ws,
      computeAdjustedTimecontrol 3 ⟨3, 1⟩ ⟨"40".data ++ '/' :: "60".data⟩
          = .ok (⟨"40".data⟩ ++ "/" ++ s') ∧
        pyFloat s'.data = some ws ∧ ws.toRat = (⟨60, 1⟩ : Frac).toRat) ∧
    (∃ s' i' ws wi,
      computeAdjustedTimecontrol 3 ⟨3, 1⟩ ⟨"60".data ++ '+' :: "0.25".data⟩
          = .ok (s' ++ "+" ++ i') ∧
        pyFloat s'.data = some ws ∧ ws.toRat = (⟨60, 1⟩ : Frac).toRat ∧
        pyFloat i'.data = some wi ∧ wi.toRat = (⟨25, 100⟩ : Frac).toRat)) :=
  ⟨by decide, by decide, by decide, by decide, by decide, ⟨6000, by ring⟩, ⟨25, by ring⟩,
    openbench_C6_identity_on_hundredths 3 (by decide) "40".data "60".data "0.25".data
      (by decide) (by decide) (by decide) (by decide) (by decide) (by decide)
      ⟨60, 1⟩ ⟨25, 100⟩ (by decide) (by decide) (by decide) (by decide)
      ⟨6000, by ring⟩ ⟨25, by ring⟩⟩

/-- C6 counterexample: at `speedFactor = 1.0` the input `"0.125+0.5"` is
scaled to `"0.12+0.5"` — `round(0.125, 2)` rounds the tie to even — so
the first numeric field of the output (`0.12`) differs from the
corresponding input field (`0.125`): scaling at factor 1 is *not*
numerically the identity on every valid input. -/
theorem openbench_C6_counterexample :
    computeAdjustedTimecontrol 1 ⟨1, 1⟩ "0.125+0.5" = .ok "0.12+0.5" ∧
    pyFloat "0.125".data = some ⟨125, 1000⟩ ∧
    pyFloat "0.12".data = some ⟨12, 100⟩ ∧
    (⟨12, 100⟩ : Frac).toRat ≠ (⟨125, 1000⟩ : Frac).toRat := by
  refine ⟨by decide, by decide, by decide, ?_⟩
  rw [Frac.toRat_mk, Frac.toRat_mk]
  norm_num
